import Mathlib

/-!
Shallow embedding of the `file_renamer` repository core
(`src/renamer.py`, `src/filesystem.py`, `src/undo.py`, `src/api.py`)
together with proofs about the frozen claims.

Strings are modelled as `List Char`; paths as lists of components
(`List (List Char)`); the filesystem as finite lists of existing file
and directory paths.  Python regular-expression searches used by
`Renamer.parse_filename` are embedded as specialised matchers that
reproduce `re.search` semantics (leftmost start, lazy/greedy
backtracking) for the concrete patterns appearing in the source.
-/

namespace FileRenamer

/-- Characters counted as whitespace by Python's `str.strip()` (ASCII part). -/
def pyWs : List Char := [' ', '\t', '\n', '\r', '\x0b', '\x0c']

/-- Python `str.strip()` / `str.strip(chars)`: drop characters of `cs`
from both ends. -/
def pyStrip (cs : List Char) (s : List Char) : List Char :=
  ((s.dropWhile (fun c => cs.contains c)).reverse.dropWhile
    (fun c => cs.contains c)).reverse

/-- `str.replace('.', ' ')` on a string. -/
def dot2sp (s : List Char) : List Char :=
  s.map (fun c => if c = '.' then ' ' else c)

/-- ASCII decimal digit test (`\d` for the inputs considered). -/
def isDigitCh (c : Char) : Bool := '0' ≤ c && c ≤ '9'

/-- `\s` character class (ASCII part, as in Python `re`). -/
def isSpaceCh (c : Char) : Bool := pyWs.contains c

/-- Python `str.lower()` (ASCII model). -/
def pyLower (s : List Char) : List Char := s.map Char.toLower

/-- Value of a digit character. -/
def digitVal (c : Char) : Nat := c.toNat - 48

/-- Python `int()` of a (non-empty) decimal digit string. -/
def digitsVal (s : List Char) : Nat := s.foldl (fun a c => 10 * a + digitVal c) 0

/-- Decimal rendering of a natural number, with explicit fuel so that the
definition is structural (mirrors `str(counter)` / f-string rendering). -/
def natReprAux : Nat → Nat → List Char
  | 0, _ => []
  | fuel + 1, n =>
    if n < 10 then [Nat.digitChar n]
    else natReprAux fuel (n / 10) ++ [Nat.digitChar (n % 10)]

/-- Decimal rendering of a natural number (`str(n)` in Python). -/
def natReprL (n : Nat) : List Char := natReprAux (n + 1) n

theorem digitVal_digitChar : ∀ d, d < 10 → digitVal (Nat.digitChar d) = d := by
  decide

theorem digitsVal_append_digit (s : List Char) (c : Char) :
    digitsVal (s ++ [c]) = 10 * digitsVal s + digitVal c := by
  simp [digitsVal, List.foldl_append]

theorem digitsVal_natReprAux (fuel n : Nat) (h : n < fuel) :
    digitsVal (natReprAux fuel n) = n := by
  induction fuel generalizing n with
  | zero => omega
  | succ f ih =>
    by_cases hn : n < 10
    · simp only [natReprAux, if_pos hn]
      have : digitsVal [Nat.digitChar n] = digitVal (Nat.digitChar n) := by
        simp [digitsVal, digitVal]
      rw [this, digitVal_digitChar n hn]
    · simp only [natReprAux, if_neg hn]
      rw [digitsVal_append_digit, ih (n / 10) (by omega)]
      have := digitVal_digitChar (n % 10) (Nat.mod_lt n (by omega))
      omega

theorem digitsVal_natReprL (n : Nat) : digitsVal (natReprL n) = n :=
  digitsVal_natReprAux (n + 1) n (Nat.lt_succ_self n)

theorem natReprL_injective : Function.Injective natReprL := by
  intro a b h
  have ha := digitsVal_natReprL a
  have hb := digitsVal_natReprL b
  rw [h] at ha
  omega

/-! ## Path-name helpers (`pathlib.PurePath.stem` / `.suffix`) -/

/-- Index of the last occurrence of `c` in `s` (`str.rfind`). -/
def lastIdxOf (c : Char) : List Char → Option Nat
  | [] => none
  | a :: as =>
    match lastIdxOf c as with
    | some i => some (i + 1)
    | none => if a = c then some 0 else none

/-- `PurePath.stem` of a file name: the name up to the last dot, provided
that dot is neither the first nor the last character. -/
def stemOf (name : List Char) : List Char :=
  match lastIdxOf '.' name with
  | some i => if 0 < i ∧ i < name.length - 1 then name.take i else name
  | none => name

/-- `PurePath.suffix` of a file name. -/
def suffixOf (name : List Char) : List Char :=
  match lastIdxOf '.' name with
  | some i => if 0 < i ∧ i < name.length - 1 then name.drop i else []
  | none => []

/-! ## Parsed identity record (the dict built by `Renamer.parse_filename`) -/

/-- The metadata dictionary produced by `Renamer.parse_filename`.
Absent dictionary keys are `none`. -/
structure Info where
  ptype : String
  title : List Char
  season : Option Nat := none
  episode : Option Nat := none
  episodeTitle : Option (List Char) := none
  year : Option Nat := none
  isAudio : Bool := false
deriving DecidableEq, Repr

/-- Book/audiobook extensions checked first by `parse_filename`
(`{'.epub', '.pdf', '.mobi', '.azw3', '.m4b', '.mp3'}`). -/
def bookishExts : List (List Char) :=
  [".epub".toList, ".pdf".toList, ".mobi".toList, ".azw3".toList,
   ".m4b".toList, ".mp3".toList]

/-- Audio extensions (`{'.m4b', '.mp3'}`). -/
def audioExts : List (List Char) := [".m4b".toList, ".mp3".toList]

/-! ## Pattern 1: `(.+?)[ .][sS](\d{1,2})[eE](\d{1,2})(?:[ .-]*(.+?))?$`

The matcher reproduces `re.search` semantics: start positions are tried
left to right; the lazy group `(.+?)` grows one character at a time
(never across a newline, since `.` does not match `\n`); `(\d{1,2})` is
greedy with backtracking; the trailing optional group backtracks the
greedy `[ .-]*` run by one character when the whole remainder consists
of separators. -/

/-- Candidate parses of a greedy `(\d{1,2})`, in backtracking priority
order (two digits first, then one). -/
def digits12 (l : List Char) : List (List Char × List Char) :=
  match l with
  | a :: b :: rest =>
    (if isDigitCh a && isDigitCh b then [([a, b], rest)] else [])
    ++ (if isDigitCh a then [([a], b :: rest)] else [])
  | [a] => if isDigitCh a then [([a], [])] else []
  | [] => []

/-- Group 4 of the trailing `(?:[ .-]*(.+?))?` when it participates in a
match against remainder `r`: strip the leading separator run, but keep
its last character when the whole remainder is separators. -/
def tvG4 (r : List Char) : Option (List Char) :=
  if r.isEmpty then none
  else some (r.drop (min (r.takeWhile (fun c => c = ' ' || c = '.' || c = '-')).length
                         (r.length - 1)))

/-- Whether (and how) the regex tail `(?:[ .-]*(.+?))?$` matches the
remainder `r` after the episode digits: `none` means the whole position
fails (a newline blocks `(.+?)` from reaching the end of the string;
with no remainder the optional group is skipped and `$` matches). -/
def tvTail4 (r : List Char) : Option (Option (List Char)) :=
  if (tvG4 r).any (fun g => g.contains '\n') then none else some (tvG4 r)

/-- The `[eE](\d{1,2})(?:[ .-]*(.+?))?$` part, after season digits of
value `dVal`. -/
def tvSETailE (dVal : Nat) : List Char → Option (Nat × Nat × Option (List Char))
  | [] => none
  | ec :: rest3 =>
    if ec = 'e' ∨ ec = 'E' then
      (digits12 rest3).findSome? fun q =>
        (tvTail4 q.2).map fun g4 => (dVal, digitsVal q.1, g4)
    else none

/-- Match of `[sS](\d{1,2})[eE](\d{1,2})(?:[ .-]*(.+?))?$` against `l`. -/
def tvSETail : List Char → Option (Nat × Nat × Option (List Char))
  | [] => none
  | sc :: rest =>
    if sc = 's' ∨ sc = 'S' then
      (digits12 rest).findSome? fun p => tvSETailE (digitsVal p.1) p.2
    else none

/-- Lazy extension of group 1 within one start position: at each
position, first try to read the separator and the `SxxExx` tail here,
otherwise absorb the character into group 1 (impossible for `\n`). -/
def tvInner (acc : List Char) : List Char → Option (List Char × Nat × Nat × Option (List Char))
  | [] => none
  | c :: rest =>
    match (if acc ≠ [] ∧ (c = ' ' ∨ c = '.') then tvSETail rest else none) with
    | some (n, m, g4) => some (acc, n, m, g4)
    | none => if c = '\n' then none else tvInner (acc ++ [c]) rest

/-- `re.search` of pattern 1 over the stem: try each start position from
the left. -/
def tvOuter : List Char → Option (List Char × Nat × Nat × Option (List Char))
  | [] => none
  | c :: rest =>
    match tvInner [] (c :: rest) with
    | some res => some res
    | none => tvOuter rest

/-- A capture of `(\d{1,2})`: one or two decimal digits. -/
def digitsOk (d : List Char) : Prop :=
  d ≠ [] ∧ d.length ≤ 2 ∧ ∀ c, c ∈ d → isDigitCh c = true

instance (d : List Char) : Decidable (digitsOk d) := by
  unfold digitsOk; infer_instance

/-! ## Pattern 1b: `(.+?)(?:[ .-]+|\s+-\s+)(\d{1,2})[xX](\d{1,2})(?:[ .-]*(.+?))?$` -/

/-- `(\d{1,2})[xX](\d{1,2})(?:[ .-]*(.+?))?$` against `l`. -/
def xTail (l : List Char) : Option (Nat × Nat × Option (List Char)) :=
  (digits12 l).findSome? fun p =>
    match p.2 with
    | [] => none
    | x :: rest3 =>
      if x = 'x' ∨ x = 'X' then
        (digits12 rest3).findSome? fun q =>
          (tvTail4 q.2).map fun g4 => (digitsVal p.1, digitsVal q.1, g4)
      else none

/-- The separator alternation `(?:[ .-]+|\s+-\s+)` followed by the
`NxM` tail, attempted at one position.  Both separator runs are forced
maximal because the character that must follow each run is never a
member of the run's class. -/
def x1bAt (l : List Char) : Option (Nat × Nat × Option (List Char)) :=
  let rA := l.dropWhile (fun c => c = ' ' || c = '.' || c = '-')
  match (if rA.length < l.length then xTail rA else none) with
  | some res => some res
  | none =>
    let r1 := l.dropWhile (fun c => isSpaceCh c)
    if r1.length < l.length then
      match r1 with
      | '-' :: r2 =>
        let r3 := r2.dropWhile (fun c => isSpaceCh c)
        if r3.length < r2.length then xTail r3 else none
      | _ => none
    else none

/-- Lazy group-1 extension for pattern 1b at a fixed start position. -/
def x1bInner (acc : List Char) : List Char → Option (List Char × Nat × Nat × Option (List Char))
  | [] => none
  | c :: rest =>
    match (if acc ≠ [] then x1bAt (c :: rest) else none) with
    | some (n, m, g4) => some (acc, n, m, g4)
    | none => if c = '\n' then none else x1bInner (acc ++ [c]) rest

/-- `re.search` of pattern 1b over the stem. -/
def x1bOuter : List Char → Option (List Char × Nat × Nat × Option (List Char))
  | [] => none
  | c :: rest =>
    match x1bInner [] (c :: rest) with
    | some res => some res
    | none => x1bOuter rest

/-! ## Folder-context strategy -/

/-- `\s*(\d+)` after an alternation prefix: skip whitespace, read a
non-empty greedy digit run. -/
def seasonDigits (r : List Char) : Option Nat :=
  let ds := (r.dropWhile (fun c => isSpaceCh c)).takeWhile (fun c => isDigitCh c)
  if ds.isEmpty then none else some (digitsVal ds)

/-- One position of `re.search(r'(?:season|s)\s*(\d+)', parent, IGNORECASE)`:
try the `season` literal first, then the single `s`. -/
def seasonAt (l : List Char) : Option Nat :=
  match (if pyLower (l.take 6) = "season".toList then seasonDigits (l.drop 6) else none) with
  | some n => some n
  | none =>
    match l with
    | c :: rest => if c.toLower = 's' then seasonDigits rest else none
    | [] => none

/-- Leftmost search of the season token in the parent directory name. -/
def seasonSearch : List Char → Option Nat
  | [] => none
  | c :: rest =>
    match seasonAt (c :: rest) with
    | some n => some n
    | none => seasonSearch rest

/-- Does `r` match `(?:\s*\(\d{4}\))?$` entirely (the optional trailing
year of `re.match(r'(.+?)(?:\s*\(\d{4}\))?$', show_folder)`)? -/
def yearParenEnd (r : List Char) : Bool :=
  r.isEmpty ||
  (match r.dropWhile (fun c => isSpaceCh c) with
   | '(' :: d1 :: d2 :: d3 :: d4 :: ')' :: [] =>
     isDigitCh d1 && isDigitCh d2 && isDigitCh d3 && isDigitCh d4
   | _ => false)

/-- Group 1 of `re.match(r'(.+?)(?:\s*\(\d{4}\))?$', show_folder)`:
the shortest non-empty newline-free prefix whose remainder is an
optional parenthesised year. -/
def showFolderTitle : (acc : List Char) → List Char → Option (List Char)
  | _, [] => none
  | acc, c :: rest =>
    if c = '\n' then none
    else if yearParenEnd rest then some (acc ++ [c])
    else showFolderTitle (acc ++ [c]) rest

/-- Boundary class `(?:$|\s|\.|-)` after the relaxed episode number. -/
def epBoundary (r : List Char) : Bool :=
  match r with
  | [] => true
  | c :: _ => isSpaceCh c || c = '.' || c = '-'

/-- `(\d{1,2})(?:$|\s|\.|-)` with greedy digit backtracking. -/
def epDigits (r : List Char) : Option Nat :=
  (digits12 r).findSome? fun p =>
    if epBoundary p.2 then some (digitsVal p.1) else none

/-- One position of `re.search(r'(?:[eE]|^|\s)(\d{1,2})(?:$|\s|\.|-)', stem)`:
alternatives in order `[eE]` (consuming), `^` (zero width, position 0
only), `\s` (consuming). -/
def epAt (first : Bool) (l : List Char) : Option Nat :=
  match l with
  | [] => none
  | c :: rest =>
    match (if c = 'e' ∨ c = 'E' then epDigits rest else none) with
    | some n => some n
    | none =>
      match (if first then epDigits (c :: rest) else none) with
      | some n => some n
      | none => if isSpaceCh c then epDigits rest else none

/-- Leftmost search of the relaxed episode number in the stem. -/
def epSearch (first : Bool) : List Char → Option Nat
  | [] => none
  | c :: rest =>
    match epAt first (c :: rest) with
    | some n => some n
    | none => epSearch false rest

/-! ## Pattern 3 (anime): `^(?:\[.*?\]\s*)?(.+?)\s*-\s*(\d{2,4})(?:\s|[\.\[]|$)` -/

/-- Boundary class `(?:\s|[\.\[]|$)` after the absolute episode number. -/
def animeBoundary (r : List Char) : Bool :=
  match r with
  | [] => true
  | c :: _ => isSpaceCh c || c = '.' || c = '['

/-- Lazy group 1 plus `\s*-\s*(\d{2,4})` and the boundary, from a fixed
start.  Both `\s*` runs and the `\d{2,4}` run are forced maximal; a
shorter digit run would put a digit where the boundary class must
match. -/
def animeCore (acc : List Char) : List Char → Option (List Char × Nat)
  | [] => none
  | c :: rest =>
    if c = '\n' then none
    else
      match
        (match rest.dropWhile (fun x => isSpaceCh x) with
         | '-' :: r2 =>
           let r3 := r2.dropWhile (fun x => isSpaceCh x)
           let ds := r3.takeWhile (fun x => isDigitCh x)
           if 2 ≤ ds.length ∧ ds.length ≤ 4 ∧ animeBoundary (r3.drop ds.length) then
             some (acc ++ [c], digitsVal ds)
           else none
         | _ => none) with
      | some res => some res
      | none => animeCore (acc ++ [c]) rest

/-- Backtracking of the greedy `\s*` after the bracket group: consume
`k` whitespace characters, preferring larger `k`. -/
def animeAfterSpaces : Nat → List Char → Option (List Char × Nat)
  | 0, l => animeCore [] l
  | k + 1, l =>
    match animeCore [] (l.drop (k + 1)) with
    | some res => some res
    | none => animeAfterSpaces k l

/-- The bracket alternative `\[.*?\]\s*` followed by the core: the lazy
`.*?` tries each closing bracket from the left and cannot cross a
newline. -/
def animeBracketAux : List Char → Option (List Char × Nat)
  | [] => none
  | c :: rest =>
    match (if c = ']' then animeAfterSpaces ((rest.takeWhile (fun x => isSpaceCh x)).length) rest
           else none) with
    | some res => some res
    | none => if c = '\n' then none else animeBracketAux rest

/-- `re.search` of the anime pattern over the whole filename (it is
anchored, so only start position 0): the optional bracket group is
greedy, so the bracket alternative is attempted first. -/
def animeSearch (name : List Char) : Option (List Char × Nat) :=
  match (match name with
         | '[' :: t => animeBracketAux t
         | _ => none) with
  | some res => some res
  | none => animeCore [] name

/-! ## Pattern 4 (movie year): `re.finditer(r'(?:^|[ .\(])(\d{4})(?:$|[ .\)])', filename)` -/

/-- Four digits followed by the closing boundary; returns the year, the
remainder after the (consumed) match and the number of characters
consumed. -/
def digits4After (l : List Char) : Option (Nat × List Char × Nat) :=
  match l with
  | a :: b :: c :: d :: rest =>
    if isDigitCh a && isDigitCh b && isDigitCh c && isDigitCh d then
      match rest with
      | [] => some (digitsVal [a, b, c, d], [], 4)
      | e :: rest' =>
        if e = ' ' ∨ e = '.' ∨ e = ')' then some (digitsVal [a, b, c, d], rest', 5)
        else none
    else none
  | _ => none

/-- Attempt one year match at absolute position `pos` (alternation `^`
first, then the consuming boundary class `[ .\(]`).  Returns match
start, year, characters consumed, remainder. -/
def tryYearAt (pos : Nat) (l : List Char) : Option (Nat × Nat × Nat × List Char) :=
  match (if pos = 0 then (digits4After l).map (fun r => (0, r.1, r.2.2, r.2.1)) else none) with
  | some res => some res
  | none =>
    match l with
    | b :: r =>
      if b = ' ' ∨ b = '.' ∨ b = '(' then
        (digits4After r).map fun s => (pos, s.1, s.2.2 + 1, s.2.1)
      else none
    | [] => none

/-- `finditer`: non-overlapping scan, resuming after each match's end. -/
def yearScanAux : Nat → Nat → List Char → List (Nat × Nat)
  | 0, _, _ => []
  | fuel + 1, pos, l =>
    match tryYearAt pos l with
    | some (start, y, adv, rest) => (start, y) :: yearScanAux fuel (pos + adv) rest
    | none =>
      match l with
      | [] => []
      | _ :: r => yearScanAux fuel (pos + 1) r

/-- All year-pattern matches in the filename: (match start, value). -/
def yearScan (name : List Char) : List (Nat × Nat) :=
  yearScanAux (name.length + 1) 0 name

/-- The plausible-year filter `1880 < y < 2030`. -/
def yearInRange (m : Nat × Nat) : Bool := 1880 < m.2 && m.2 < 2030

/-- Step 4 of the cascade plus the final fallback: iterate the year
matches from the end of the filename backwards, accept the first
plausible year; otherwise `type = unknown` with the raw stem. -/
def movieStep (name : List Char) : Info :=
  match (yearScan name).reverse.find? yearInRange with
  | some m =>
    { ptype := "movie", year := some m.2,
      title := pyStrip [' ', '(', ')', '-'] (dot2sp (name.take m.1)) }
  | none => { ptype := "unknown", title := stemOf name }

/-! ## `Renamer.parse_filename` -/

/-- `Renamer.parse_filename`, as a function of the file name and the
names of its parent and grandparent directories (the only parts of the
path the source inspects). -/
def parse_filename (parentName grandName name : List Char) : Info :=
  let ext := pyLower (suffixOf name)
  let stem := stemOf name
  if bookishExts.contains ext then
    if audioExts.contains ext then
      { ptype := "audiobook", title := pyStrip pyWs (dot2sp stem), isAudio := true }
    else
      { ptype := "book", title := pyStrip pyWs (dot2sp stem) }
  else
    match tvOuter stem with
    | some (t, se, ep, g4) =>
      { ptype := "tv", title := pyStrip pyWs (dot2sp t),
        season := some se, episode := some ep,
        episodeTitle := g4.map (fun g => pyStrip pyWs (dot2sp g)) }
    | none =>
      match x1bOuter stem with
      | some (t, se, ep, g4) =>
        { ptype := "tv", title := pyStrip [' ', '-'] (dot2sp t),
          season := some se, episode := some ep,
          episodeTitle := g4.map (fun g => pyStrip [' ', '-'] (dot2sp g)) }
      | none =>
        match seasonSearch parentName with
        | some sn =>
          { ptype := "tv", season := some sn,
            title := pyStrip pyWs ((showFolderTitle [] grandName).getD grandName),
            episode := some ((epSearch true stem).getD 1) }
        | none =>
          match animeSearch name with
          | some (t, pep) =>
            if ¬ (1900 < pep ∧ pep < 2030) then
              { ptype := "tv", title := pyStrip pyWs (dot2sp t),
                season := some 1, episode := some pep }
            else movieStep name
          | none => movieStep name

/-! ## Filesystem model and `src/filesystem.py`

A path is a list of components (root = `[]`); the filesystem state is
the finite list of existing file paths and existing directory paths.
`Path.exists()` is membership in either list. -/

/-- A filesystem path, as its list of components. -/
abbrev MPath := List (List Char)

/-- Filesystem state: the existing files and directories. -/
structure FS where
  files : List MPath
  dirs : List MPath
deriving DecidableEq, Repr

/-- `Path.exists()`. -/
def pexists (fs : FS) (p : MPath) : Bool := fs.files.contains p || fs.dirs.contains p

/-- The last component (name) of a path. -/
def nameOf (p : MPath) : List Char := p.getLastD []

/-- The parent of a path (`Path.parent`, with `[]` for the root). -/
def parentOf (p : MPath) : MPath := p.dropLast

/-- The candidate name `f"{stem} ({counter}){suffix}"`. -/
def candName (stem sfx : List Char) (n : Nat) : List Char :=
  stem ++ " (".toList ++ natReprL n ++ ")".toList ++ sfx

/-- The candidate path `parent / f"{stem} ({counter}){suffix}"`. -/
def candPath (p : MPath) (n : Nat) : MPath :=
  parentOf p ++ [candName (stemOf (nameOf p)) (suffixOf (nameOf p)) n]

/-- The counter loop of `get_unique_path`, with explicit fuel. -/
def guAux (fs : FS) (p : MPath) : Nat → Nat → MPath
  | 0, c => candPath p c
  | fuel + 1, c =>
    if pexists fs (candPath p c) then guAux fs p fuel (c + 1) else candPath p c

/-- `filesystem.get_unique_path`: return `p` unless it exists, else the
first `stem (n)` variant that does not exist, counting from 1.  The
fuel bound `|files| + |dirs| + 1` is proved sufficient below. -/
def get_unique_path (fs : FS) (p : MPath) : MPath :=
  if pexists fs p then guAux fs p (fs.files.length + fs.dirs.length + 1) 1 else p

/-- The associated-file test of `filesystem.find_associated_files`:
same directory, not the main file, name starts with the main stem and
the next character is a separator. -/
def isAssociated (main : MPath) (item : MPath) : Bool :=
  parentOf item = parentOf main && item ≠ main &&
  (let stem := stemOf (nameOf main)
   let nm := nameOf item
   stem.isPrefixOf nm &&
   (match nm.drop stem.length with
    | [] => false
    | c :: _ => c = '.' || c = '-' || c = '_' || c = ' '))

/-- `filesystem.find_associated_files`: files (directory entries that
are files) in the main file's directory passing `isAssociated`. -/
def find_associated_files (fs : FS) (main : MPath) : List MPath :=
  if pexists fs main then fs.files.filter (isAssociated main) else []

/-- `Path.mkdir(parents=True, exist_ok=True)`: the directory and all of
its ancestors come to exist. -/
def mkdirParents (fs : FS) (d : MPath) : FS :=
  { fs with dirs := d.inits ++ fs.dirs }

/-- `shutil.move(src, target)` when `target` itself is free: `src`
ceases to exist and `target` exists (as a file or directory, matching
what `src` was). -/
def rawMove (fs : FS) (src target : MPath) : FS :=
  if src ∈ fs.files then
    { fs with files := target :: fs.files.filter (· ≠ src) }
  else
    { fs with dirs := target :: fs.dirs.filter (· ≠ src) }

/-- `filesystem.move_file`: `none` models `FileNotFoundError`; otherwise
create the destination's parents, pick the collision-free path, move,
and return the new state and the final destination. -/
def move_file (fs : FS) (src dest : MPath) : Option (FS × MPath) :=
  if pexists fs src then
    let fs1 := mkdirParents fs (parentOf dest)
    let fin := get_unique_path fs1 dest
    some (rawMove fs1 src fin, fin)
  else none

/-- The associated-file renaming of `execute_moves` (api.py lines
425-427): `suffix_part = assoc.name[len(original.stem):]`, new name
`final_target.stem + suffix_part`, placed in `final_target.parent`. -/
def assocMoveTarget (original finalTarget assoc : MPath) : MPath :=
  parentOf finalTarget ++
    [stemOf (nameOf finalTarget) ++ (nameOf assoc).drop (stemOf (nameOf original)).length]

/-- Does directory `p` have any entry (file or subdirectory)?
(`any(path.iterdir())`). -/
def hasChild (fs : FS) (p : MPath) : Bool :=
  fs.files.any (fun f => f ≠ [] && parentOf f = p) ||
  fs.dirs.any (fun d => d ≠ [] && parentOf d = p)

/-- `Path.rmdir()` on an empty directory. -/
def removeDir (fs : FS) (p : MPath) : FS :=
  { fs with dirs := fs.dirs.filter (· ≠ p) }

/-- The recursion of `filesystem.clean_empty_dirs`, with explicit fuel.
The `p = []` case models `rmdir` failing with `OSError` on the
filesystem root (swallowed by the `except OSError` handler). -/
def cleanAux (root : Option MPath) : Nat → FS → MPath → FS
  | 0, fs, _ => fs
  | fuel + 1, fs, p =>
    if ¬ fs.dirs.contains p then fs
    else if root = some p then fs
    else if p = [] then fs
    else if hasChild fs p then fs
    else cleanAux root fuel (removeDir fs p) (parentOf p)

/-- `filesystem.clean_empty_dirs`. -/
def clean_empty_dirs (fs : FS) (p : MPath) (root : Option MPath) : FS :=
  cleanAux root (p.length + 1) fs p

/-! ## `src/undo.py` -/

/-- One recorded move (`{'src': ..., 'dest': ...}`). -/
structure MoveOp where
  src : MPath
  dest : MPath
deriving DecidableEq, Repr

/-- A per-file failure recorded while undoing. -/
inductive UndoFailure
  | missingDest (dest : MPath)
  | occupiedSrc (src : MPath)
deriving DecidableEq, Repr

/-- The report dictionary returned by `undo_last_batch`. -/
structure UndoReport where
  success : Bool
  message : Option String := none
  restoredCount : Option Nat := none
  failureCount : Option Nat := none
  failures : Option (List UndoFailure) := none
deriving DecidableEq, Repr

/-- Undo one recorded move: require the destination to still exist and
the source slot to be free (else record a failure and leave the
filesystem untouched); otherwise recreate the source's parents, move
the file back and prune the destination's directory (no root floor). -/
def undoStep (st : FS × Nat × List UndoFailure) (op : MoveOp) : FS × Nat × List UndoFailure :=
  if pexists st.1 op.dest = false then
    (st.1, st.2.1, st.2.2 ++ [UndoFailure.missingDest op.dest])
  else if pexists st.1 op.src then
    (st.1, st.2.1, st.2.2 ++ [UndoFailure.occupiedSrc op.src])
  else
    let fs1 := mkdirParents st.1 (parentOf op.src)
    let fs2 := rawMove fs1 op.dest op.src
    let fs3 := clean_empty_dirs fs2 (parentOf op.dest) none
    (fs3, st.2.1 + 1, st.2.2)

/-- `UndoManager.undo_last_batch`: on empty history report failure and
change nothing; otherwise process the newest batch's moves in reverse
order and pop the batch from history regardless of per-file failures. -/
def undo_last_batch (history : List (List MoveOp)) (fs : FS) :
    List (List MoveOp) × FS × UndoReport :=
  match history with
  | [] => (history, fs, { success := false, message := some "No history found." })
  | batch :: rest =>
    let final := batch.reverse.foldl undoStep (fs, 0, [])
    (rest, final.1,
     { success := true, restoredCount := some final.2.1,
       failureCount := some final.2.2.length, failures := some final.2.2 })

/-! ## `Renamer.propose_new_path` -/

/-- Python `str.replace(pat, rep)`: non-overlapping left-to-right scan,
with fuel (one unit per character consumed). -/
def replaceAux (pat rep : List Char) : Nat → List Char → List Char
  | 0, s => s
  | fuel + 1, s =>
    match s with
    | [] => []
    | c :: rest =>
      if pat ≠ [] ∧ pat.isPrefixOf s then rep ++ replaceAux pat rep fuel (s.drop pat.length)
      else c :: replaceAux pat rep fuel rest

/-- Python `str.replace(pat, rep)` (for non-empty `pat`). -/
def replaceList (pat rep s : List Char) : List Char := replaceAux pat rep s.length s

/-- One item of an already-parsed `str.format` template: literal text or
a `{key}` substitution field. -/
inductive TItem
  | lit (s : List Char)
  | field (k : String)
deriving DecidableEq, Repr

/-- `template.format(**context)`: `none` models the `KeyError` raised by
a field whose key is absent from the context. -/
def renderTemplate (ctx : String → Option (List Char)) : List TItem → Option (List Char)
  | [] => some []
  | TItem.lit s :: r => (renderTemplate ctx r).map (fun t => s ++ t)
  | TItem.field k :: r =>
    match ctx k with
    | none => none
    | some v => (renderTemplate ctx r).map (fun t => v ++ t)

/-- The per-type templates supplied by the configuration collaborator. -/
structure Templates where
  movie : List TItem
  tv : List TItem
  book : List TItem
  audiobook : List TItem

/-- The metadata dictionary handed to `propose_new_path` (parsed info
optionally overlaid with a selected candidate).  `none` models an
absent key (or a key whose presence the source treats like absence);
`extra` holds any further keys of the dictionary. -/
structure Meta where
  mtype : Option String := none
  title : Option (List Char) := none
  year : Option Nat := none
  season : Option Nat := none
  episode : Option Nat := none
  episodeTitle : Option (List Char) := none
  author : Option (List Char) := none
  isAudio : Bool := false
  extra : List (String × List Char) := []
deriving DecidableEq, Repr

/-- `f"{int(x):02d}"` for a present season/episode, `'00'` otherwise. -/
def pad2 (x : Option Nat) : List Char :=
  match x with
  | some n => if n < 10 then '0' :: natReprL n else natReprL n
  | none => "00".toList

/-- The substitution context built by `propose_new_path`: `ext` from the
original path, defaults for title/year/resolution/group, zero-padded
season and episode, defaulted episode title, and (in the book branch)
a defaulted author. -/
def buildCtx (md : Meta) (ext : List Char) (isBook : Bool) (k : String) : Option (List Char) :=
  if k = "ext" then some ext
  else if k = "title" then some (md.title.getD "Unknown".toList)
  else if k = "year" then some (match md.year with | some y => natReprL y | none => [])
  else if k = "resolution" then some []
  else if k = "group" then some []
  else if k = "season" then some (pad2 md.season)
  else if k = "episode" then some (pad2 md.episode)
  else if k = "episode_title" then
    some (match md.episodeTitle with
          | some t => if t.isEmpty then "Episode ".toList ++ pad2 md.episode else t
          | none => "Episode ".toList ++ pad2 md.episode)
  else if k = "author" then
    (if isBook then some (md.author.getD "Unknown Author".toList) else md.author)
  else (md.extra.find? (fun e => e.1 = k)).map (fun e => e.2)

/-- The template selected by the type dispatch of `propose_new_path`
(`none` for an unknown type). -/
def selectedTemplate (cfg : Templates) (md : Meta) : Option (List TItem) :=
  if md.mtype = some "movie" then some cfg.movie
  else if md.mtype = some "tv" then some cfg.tv
  else if md.mtype = some "book" ∨ md.mtype = some "audiobook" then
    some (if md.mtype = some "audiobook" ∨ md.isAudio then cfg.audiobook else cfg.book)
  else none

/-- The post-processing applied to a successfully rendered path: drop
`()` artifacts, collapse doubled spaces, replace `:` by ` -`, strip. -/
def cleanupRendered (rel : List Char) : List Char :=
  pyStrip pyWs (replaceList [':'] [' ', '-']
    (replaceList [' ', ' '] [' '] (replaceList ['(', ')'] [] rel)))

/-- `Renamer.propose_new_path`: result is the rendered relative path, or
the original file name for an unknown type or a template `KeyError`. -/
def propose_new_path (cfg : Templates) (name : List Char) (md : Meta) : List Char :=
  let ext := suffixOf name
  let isBook := md.mtype = some "book" ∨ md.mtype = some "audiobook"
  match selectedTemplate cfg md with
  | none => name
  | some t =>
    match renderTemplate (buildCtx md ext isBook) t with
    | none => name
    | some rel => cleanupRendered rel

/-! ## `api.py`: folder-context cache logic of `process_file` -/

/-- A normalized TV/movie candidate as produced by
`Renamer.get_candidates` (the fields the cache logic reads). -/
structure Cand where
  title : List Char
  id : Nat
  ctype : String
  year : Option Nat := none
deriving DecidableEq, Repr

/-- A `FolderContext` entry (`folder_cache[parent]`): show type, title,
optional external id, primary candidate and candidate list. -/
structure FolderCtx where
  ctype : String
  title : List Char
  tmdbId : Option Nat := none
  showMetadata : Option Cand := none
  allCandidates : Option (List Cand) := none
deriving DecidableEq, Repr

/-- The per-file metadata dictionary of `process_file`: the parsed info
plus the keys the cache may add. -/
structure AMeta where
  info : Info
  tmdbId : Option Nat := none
  showMetadata : Option Cand := none
  allCandidates : Option (List Cand) := none
deriving DecidableEq, Repr

/-- The mixed-directory denylist of `process_file`. -/
def mixedNames : List (List Char) :=
  ["downloads".toList, "desktop".toList, "documents".toList,
   "unsorted".toList, "incoming".toList]

/-- `parent_name.lower() in [...]`. -/
def isMixedDir (parentName : List Char) : Bool := mixedNames.contains (pyLower parentName)

/-- The title normalization of the cache-applicability check:
`.lower().replace('.', ' ').replace('-', ' ')`. -/
def normTitle (s : List Char) : List Char :=
  replaceList ['-'] [' '] (replaceList ['.'] [' '] (pyLower s))

/-- Python's substring test `needle in hay` (contiguous). -/
def isSubstr (needle : List Char) : List Char → Bool
  | [] => needle.isPrefixOf []
  | c :: t => needle.isPrefixOf (c :: t) || isSubstr needle t

/-- Step 2 of `process_file` (api.py lines 156-193): decide whether the
directory's cached TV context applies to this file, and overlay it on
the metadata when it does.  Returns the (possibly updated) metadata and
the `using_cache` flag. -/
def cacheApply (md : AMeta) (cached : Option FolderCtx) (parentName : List Char) :
    AMeta × Bool :=
  match cached with
  | none => (md, false)
  | some c =>
    if ¬ isMixedDir parentName ∧ c.ctype = "tv" then
      let parsed := pyStrip pyWs md.info.title
      let cachedT := pyStrip pyWs c.title
      let pNorm := normTitle parsed
      let cNorm := normTitle cachedT
      let shouldUse : Bool :=
        ! (!parsed.isEmpty && decide (parsed.length > 2) &&
           !isSubstr pNorm cNorm && !isSubstr cNorm pNorm)
      if shouldUse then
        ({ md with
           info := { md.info with title := c.title },
           tmdbId := if c.tmdbId.isSome then c.tmdbId else md.tmdbId,
           showMetadata := if c.showMetadata.isSome then c.showMetadata else md.showMetadata,
           allCandidates := if c.allCandidates.isSome then c.allCandidates else md.allCandidates },
         true)
      else (md, false)
    else (md, false)

/-- The folder-cache registration of `process_file` (api.py lines
226-242): create an entry from the top candidate for a non-mixed
directory with no entry yet, or upgrade an entry lacking an external
id. -/
def registerFolderCtx (dirPath : MPath) (mixed : Bool)
    (fc : List (MPath × FolderCtx)) (cands : List Cand) : List (MPath × FolderCtx) :=
  match cands with
  | [] => fc
  | c0 :: _ =>
    if c0.ctype = "tv" then
      if ¬ mixed ∧ (fc.find? (fun e => e.1 = dirPath)).isNone then
        (dirPath,
         { ctype := "tv", title := c0.title, tmdbId := some c0.id,
           showMetadata := some c0, allCandidates := some cands }) :: fc
      else
        match fc.find? (fun e => e.1 = dirPath) with
        | some e =>
          if e.2.tmdbId.isNone then
            fc.map (fun x =>
              if x.1 = dirPath then
                (x.1,
                 { x.2 with
                   tmdbId := some c0.id
                   showMetadata := some c0
                   allCandidates := some cands })
              else x)
          else fc
        | none => fc
    else fc

/-- Opaque season data returned by `tmdb_client.get_season_details`
(its contents are only consumed by the code that is never reached). -/
structure SeasonData where
  seasonNumber : Nat
deriving DecidableEq, Repr

/-- The parameter names of `Renamer.get_candidates`
(renamer.py line 139). -/
def getCandidatesParams : List String :=
  ["parsed_info", "cached_season_data", "cached_show_metadata"]

/-- The keyword arguments used by the call in `process_file`
(api.py lines 220-224). -/
def processFileCallKwargs : List String :=
  ["cached_season_data", "cached_all_candidates"]

/-- Python keyword binding: a call succeeds only if every keyword names
a parameter of the callee; otherwise it raises `TypeError`. -/
def getCandidatesCallOk : Bool :=
  processFileCallKwargs.all (fun k => getCandidatesParams.contains k)

/-- `process_file` (api.py lines 148-291), up to the response model: the
candidate lookup itself is abstracted by `oracle` (its output is
determined by external metadata providers), the season fetch by
`seasonOracle`.  Returns (result, folder cache, season cache); `none`
is the `except`-handler's `return None`.  The call of
`renamer.get_candidates` is modelled through `getCandidatesCallOk`:
when the keyword binding fails, the raised `TypeError` is caught by the
surrounding handler. -/
def process_file
    (oracle : AMeta → Option SeasonData → List Cand)
    (seasonOracle : Nat → Nat → Option SeasonData)
    (fc : List (MPath × FolderCtx)) (sc : List ((Nat × Nat) × SeasonData))
    (dirPath : MPath) (parentName grandName name : List Char) :
    Option (String × List Cand) × List (MPath × FolderCtx) × List ((Nat × Nat) × SeasonData) :=
  let md0 : AMeta := { info := parse_filename parentName grandName name }
  let mixed := isMixedDir parentName
  let cached := if ¬ mixed then (fc.find? (fun e => e.1 = dirPath)).map (fun e => e.2) else none
  let step2 := cacheApply md0 cached parentName
  let md1 := step2.1
  -- step 3: season-roster batching
  let scPair : List ((Nat × Nat) × SeasonData) × Option SeasonData :=
    if md1.info.ptype = "tv" then
      match md1.tmdbId, md1.info.season with
      | some tid, some sn =>
        match sc.find? (fun e => e.1 = (tid, sn)) with
        | some e => (sc, some e.2)
        | none =>
          match seasonOracle tid sn with
          | some d => (((tid, sn), d) :: sc, some d)
          | none => (sc, none)
      | _, _ => (sc, none)
    else (sc, none)
  -- step 4: the call `renamer.get_candidates(metadata,
  -- cached_season_data=..., cached_all_candidates=...)`
  if getCandidatesCallOk then
    let cands := oracle md1 scPair.2
    let fc' := registerFolderCtx dirPath mixed fc cands
    (some (md1.info.ptype, cands), fc', scPair.1)
  else
    (none, fc, scPair.1)

/-! ## Theorems -/

theorem candName_inj (stem sfx : List Char) {a b : Nat}
    (h : candName stem sfx a = candName stem sfx b) : a = b := by
  unfold candName at h
  have h1 := List.append_cancel_right h
  have h2 := List.append_cancel_right h1
  exact natReprL_injective (List.append_cancel_left h2)

theorem candPath_inj (p : MPath) {a b : Nat} (h : candPath p a = candPath p b) : a = b := by
  unfold candPath at h
  have h1 := List.append_cancel_left h
  injection h1 with h2 _
  exact candName_inj _ _ h2

theorem pexists_iff (fs : FS) (q : MPath) :
    pexists fs q = true ↔ q ∈ fs.files ++ fs.dirs := by
  simp [pexists, List.mem_append, List.elem_iff]

/-- Pigeonhole: among the first `|files| + |dirs| + 1` counters, some
candidate path does not exist. -/
theorem exists_free_counter (fs : FS) (p : MPath) :
    ∃ k, k ≤ fs.files.length + fs.dirs.length ∧ pexists fs (candPath p (1 + k)) = false := by
  by_contra hcon
  push_neg at hcon
  have hall : ∀ k, k ≤ fs.files.length + fs.dirs.length →
      candPath p (1 + k) ∈ fs.files ++ fs.dirs := by
    intro k hk
    have := hcon k hk
    rw [← pexists_iff]
    cases h : pexists fs (candPath p (1 + k)) with
    | true => rfl
    | false => exact absurd h this
  set N := fs.files.length + fs.dirs.length with hN
  have hinj : Function.Injective (fun k : Nat => candPath p (1 + k)) := by
    intro a b hab
    have := candPath_inj p hab
    omega
  have hnd : ((List.range (N + 1)).map (fun k => candPath p (1 + k))).Nodup :=
    (List.nodup_range (N + 1)).map hinj
  have hsub : ((List.range (N + 1)).map (fun k => candPath p (1 + k))) ⊆ fs.files ++ fs.dirs := by
    intro q hq
    obtain ⟨k, hk, rfl⟩ := List.mem_map.mp hq
    exact hall k (by simpa [Nat.lt_succ_iff] using List.mem_range.mp hk)
  have hle := (List.subperm_of_subset hnd hsub).length_le
  rw [List.length_map, List.length_range, List.length_append] at hle
  omega

/-- Correctness of the fuelled counter loop: if some candidate within
the fuel bound is free, the loop returns the first free candidate. -/
theorem guAux_spec (fs : FS) (p : MPath) :
    ∀ fuel c k, k ≤ fuel → pexists fs (candPath p (c + k)) = false →
    ∃ j, guAux fs p fuel c = candPath p (c + j) ∧
         pexists fs (candPath p (c + j)) = false ∧
         ∀ i, i < j → pexists fs (candPath p (c + i)) = true := by
  intro fuel
  induction fuel with
  | zero =>
    intro c k hk hfree
    interval_cases k
    exact ⟨0, rfl, hfree, by omega⟩
  | succ f ih =>
    intro c k hk hfree
    by_cases h : pexists fs (candPath p c) = true
    · have hk0 : k ≠ 0 := by
        intro h0
        rw [h0, Nat.add_zero] at hfree
        rw [h] at hfree
        exact Bool.true_eq_false.mp hfree
      have hfree' : pexists fs (candPath p (c + 1 + (k - 1))) = false := by
        have : c + 1 + (k - 1) = c + k := by omega
        rw [this]; exact hfree
      obtain ⟨j, hres, hfree2, hmin⟩ := ih (c + 1) (k - 1) (by omega) hfree'
      refine ⟨j + 1, ?_, ?_, ?_⟩
      · rw [guAux, if_pos h]
        have : c + 1 + j = c + (j + 1) := by omega
        rw [← this]; exact hres
      · have : c + 1 + j = c + (j + 1) := by omega
        rw [← this]; exact hfree2
      · intro i hi
        cases i with
        | zero => simpa using h
        | succ i' =>
          have : c + (i' + 1) = c + 1 + i' := by omega
          rw [this]; exact hmin i' (by omega)
    · refine ⟨0, ?_, ?_, by omega⟩
      · rw [guAux, if_neg h, Nat.add_zero]
      · rw [Nat.add_zero]
        cases hx : pexists fs (candPath p c) with
        | false => rfl
        | true => exact absurd hx h

/-- Claim C6: `get_unique_path` returns `p` itself when `p` does not
exist; it always returns a path that does not exist; on collision it
returns `stem (n)` for the least counter `n ≥ 1` whose candidate is
free (all smaller counters collide); and `move_file` creates the
destination's parent directories and moves the source file to the
collision-free path. -/
theorem get_unique_path_move_file_spec (fs : FS) (p : MPath) :
    (pexists fs p = false → get_unique_path fs p = p) ∧
    pexists fs (get_unique_path fs p) = false ∧
    (pexists fs p = true →
      ∃ n, 1 ≤ n ∧ get_unique_path fs p = candPath p n ∧
        pexists fs (candPath p n) = false ∧
        ∀ m, 1 ≤ m → m < n → pexists fs (candPath p m) = true) ∧
    (∀ src dest fs' fin, src ∈ fs.files →
      move_file fs src dest = some (fs', fin) →
      fin = get_unique_path (mkdirParents fs (parentOf dest)) dest ∧
      (∀ q, q <+: parentOf dest → q ∈ fs'.dirs) ∧
      fin ∈ fs'.files ∧
      (src ≠ fin → src ∉ fs'.files)) := by
  have key : pexists fs p = true →
      ∃ n, 1 ≤ n ∧ get_unique_path fs p = candPath p n ∧
        pexists fs (candPath p n) = false ∧
        ∀ m, 1 ≤ m → m < n → pexists fs (candPath p m) = true := by
    intro hex
    obtain ⟨k, hk, hfree⟩ := exists_free_counter fs p
    obtain ⟨j, hres, hfree2, hmin⟩ :=
      guAux_spec fs p (fs.files.length + fs.dirs.length + 1) 1 k (by omega) hfree
    refine ⟨1 + j, by omega, ?_, hfree2, ?_⟩
    · rw [get_unique_path, if_pos hex]; exact hres
    · intro m h1m hmj
      have : m = 1 + (m - 1) := by omega
      rw [this]
      exact hmin (m - 1) (by omega)
  refine ⟨?_, ?_, key, ?_⟩
  · intro hne
    rw [get_unique_path, if_neg (by simp [hne])]
  · by_cases hex : pexists fs p = true
    · obtain ⟨n, _, heq, hfree, _⟩ := key hex
      rw [heq]; exact hfree
    · have hne : pexists fs p = false := by
        cases h : pexists fs p with
        | false => rfl
        | true => exact absurd h hex
      rw [get_unique_path, if_neg (by simp [hne])]
      exact hne
  · intro src dest fs' fin hsrc hmv
    have hex : pexists fs src = true := by
      rw [pexists_iff]
      exact List.mem_append.mpr (Or.inl hsrc)
    rw [move_file, if_pos hex] at hmv
    have hmv' := Option.some.inj hmv
    have hfs : rawMove (mkdirParents fs (parentOf dest)) src
        (get_unique_path (mkdirParents fs (parentOf dest)) dest) = fs' :=
      congrArg Prod.fst hmv'
    have hfin : get_unique_path (mkdirParents fs (parentOf dest)) dest = fin :=
      congrArg Prod.snd hmv'
    have hsrc1 : src ∈ (mkdirParents fs (parentOf dest)).files := hsrc
    refine ⟨hfin.symm, ?_, ?_, ?_⟩
    · intro q hq
      rw [← hfs, rawMove, if_pos hsrc1]
      simp only [mkdirParents, List.mem_append]
      exact Or.inl ((List.mem_inits q (parentOf dest)).mpr hq)
    · rw [← hfs, rawMove, if_pos hsrc1, ← hfin]
      exact List.mem_cons_self _ _
    · intro hne hmem
      rw [← hfs, rawMove, if_pos hsrc1] at hmem
      rcases List.mem_cons.mp hmem with h | h
      · exact hne (hfin ▸ h.symm).symm
      · have := (List.mem_filter.mp h).2
        simp at this

/-- Claim C7: `find_associated_files` returns exactly the files of the
main file's directory, other than the main file, whose name is the
main stem followed by one of `.`, `-`, `_`, space; and the rename step
of `execute_moves` maps such a file to the final target's directory
with the original-stem prefix replaced by the final target's stem and
the separator and remainder preserved verbatim. -/
theorem find_associated_files_spec (fs : FS) (main a : MPath) :
    (a ∈ find_associated_files fs main ↔
      (pexists fs main = true ∧ a ∈ fs.files ∧ parentOf a = parentOf main ∧ a ≠ main ∧
       ∃ sep rest, (sep = '.' ∨ sep = '-' ∨ sep = '_' ∨ sep = ' ') ∧
         nameOf a = stemOf (nameOf main) ++ sep :: rest)) ∧
    (∀ finalTarget sep rest,
       nameOf a = stemOf (nameOf main) ++ sep :: rest →
       nameOf (assocMoveTarget main finalTarget a)
         = stemOf (nameOf finalTarget) ++ sep :: rest ∧
       parentOf (assocMoveTarget main finalTarget a) = parentOf finalTarget) := by
  constructor
  · constructor
    · intro hmem
      rw [find_associated_files] at hmem
      by_cases hex : pexists fs main = true
      · rw [if_pos hex] at hmem
        obtain ⟨hfiles, hpred⟩ := List.mem_filter.mp hmem
        rw [isAssociated] at hpred
        simp only [Bool.and_eq_true, decide_eq_true_eq, bne_iff_ne, ne_eq] at hpred
        obtain ⟨⟨hpar, hne⟩, hrest⟩ := hpred
        have hpre : stemOf (nameOf main) <+: nameOf a := by
          have := hrest
          rcases hsp : List.isPrefixOf (stemOf (nameOf main)) (nameOf a) with _ | _
          · rw [hsp] at this; simp at this
          · exact List.isPrefixOf_iff_prefix.mp hsp
        obtain ⟨t, ht⟩ := hpre
        rw [← ht, List.drop_left] at hrest
        match t, hrest with
        | c :: rest, hrest =>
          refine ⟨hex, hfiles, hpar, hne, c, rest, ?_, ht.symm⟩
          have hc : (decide (c = '.') || decide (c = '-') || decide (c = '_')
              || decide (c = ' ')) = true := hrest.2
          simp only [Bool.or_eq_true, decide_eq_true_eq] at hc
          tauto
      · rw [if_neg hex] at hmem
        simp at hmem
    · rintro ⟨hex, hfiles, hpar, hne, sep, rest, hsep, hname⟩
      rw [find_associated_files, if_pos hex]
      refine List.mem_filter.mpr ⟨hfiles, ?_⟩
      rw [isAssociated]
      have hpre : List.isPrefixOf (stemOf (nameOf main)) (nameOf a) = true :=
        List.isPrefixOf_iff_prefix.mpr ⟨sep :: rest, hname.symm⟩
      have hdrop : (nameOf a).drop (stemOf (nameOf main)).length = sep :: rest := by
        rw [hname, List.drop_left]
      simp only [hpar, hne, hpre, hdrop, Bool.and_eq_true, decide_eq_true_eq, bne_iff_ne, ne_eq]
      rcases hsep with h | h | h | h <;> simp [h]
  · intro finalTarget sep rest hname
    unfold assocMoveTarget
    rw [hname, List.drop_left]
    constructor
    · rw [nameOf, List.getLastD_concat]
    · rw [parentOf, List.dropLast_concat]

/-- Claim C7 witness: `movie.en.srt` is associated with `movie.mkv`;
when the main file lands at `Movies/Real (2020).mkv`, the subtitle is
renamed to `Real (2020).en.srt` in the same directory. -/
theorem find_associated_files_spec_witness :
    ([ "d".toList, "movie.en.srt".toList ] ∈
      find_associated_files
        { files := [[ "d".toList, "movie.mkv".toList ], [ "d".toList, "movie.en.srt".toList ]],
          dirs := [[ "d".toList ]] }
        [ "d".toList, "movie.mkv".toList ]) ∧
    nameOf (assocMoveTarget [ "d".toList, "movie.mkv".toList ]
        [ "Movies".toList, "Real (2020).mkv".toList ] [ "d".toList, "movie.en.srt".toList ])
      = stemOf (nameOf [ "Movies".toList, "Real (2020).mkv".toList ]) ++ '.' :: "en.srt".toList ∧
    parentOf (assocMoveTarget [ "d".toList, "movie.mkv".toList ]
        [ "Movies".toList, "Real (2020).mkv".toList ] [ "d".toList, "movie.en.srt".toList ])
      = parentOf [ "Movies".toList, "Real (2020).mkv".toList ] :=
  ⟨by decide,
   (find_associated_files_spec
     { files := [[ "d".toList, "movie.mkv".toList ], [ "d".toList, "movie.en.srt".toList ]],
       dirs := [[ "d".toList ]] }
     [ "d".toList, "movie.mkv".toList ] [ "d".toList, "movie.en.srt".toList ]).2
     [ "Movies".toList, "Real (2020).mkv".toList ] '.' "en.srt".toList (by decide)⟩

theorem cleanAux_files (root : Option MPath) :
    ∀ fuel fs p, (cleanAux root fuel fs p).files = fs.files := by
  intro fuel
  induction fuel with
  | zero => intro fs p; rfl
  | succ f ih =>
    intro fs p
    rw [cleanAux]
    split
    · rfl
    · split
      · rfl
      · split
        · rfl
        · split
          · rfl
          · rw [ih]; rfl

theorem cleanAux_dirs_sub (root : Option MPath) :
    ∀ fuel fs p q, q ∈ (cleanAux root fuel fs p).dirs → q ∈ fs.dirs := by
  intro fuel
  induction fuel with
  | zero => intro fs p q h; exact h
  | succ f ih =>
    intro fs p q h
    rw [cleanAux] at h
    split at h
    · exact h
    · split at h
      · exact h
      · split at h
        · exact h
        · split at h
          · exact h
          · exact (List.mem_filter.mp (ih _ _ _ h)).1

theorem cleanAux_keeps_root (r : MPath) :
    ∀ fuel fs p, r ∈ fs.dirs → r ∈ (cleanAux (some r) fuel fs p).dirs := by
  intro fuel
  induction fuel with
  | zero => intro fs p h; exact h
  | succ f ih =>
    intro fs p h
    rw [cleanAux]
    split
    · exact h
    · split
      · exact h
      · split
        · exact h
        · split
          · exact h
          · rename_i hdir hroot hnil hchild
            refine ih _ _ ?_
            refine List.mem_filter.mpr ⟨h, ?_⟩
            simp only [decide_eq_true_eq]
            intro hrp
            exact hroot (by rw [hrp])

/-- Claim C8: `clean_empty_dirs` leaves the state unchanged when the
path is not an (existing) empty directory; it never touches files and
only ever removes directories; the configured root floor is never
removed; and an existing empty non-root directory is removed, after
which the walk continues at its parent. -/
theorem clean_empty_dirs_spec (fs : FS) (p : MPath) (root : Option MPath) :
    ((fs.dirs.contains p = false ∨ hasChild fs p = true) → clean_empty_dirs fs p root = fs) ∧
    (clean_empty_dirs fs p root).files = fs.files ∧
    (∀ q, q ∈ (clean_empty_dirs fs p root).dirs → q ∈ fs.dirs) ∧
    (∀ r, root = some r → r ∈ fs.dirs → r ∈ (clean_empty_dirs fs p root).dirs) ∧
    (p ∈ fs.dirs → root ≠ some p → p ≠ [] → hasChild fs p = false →
      p ∉ (clean_empty_dirs fs p root).dirs ∧
      clean_empty_dirs fs p root = clean_empty_dirs (removeDir fs p) (parentOf p) root) := by
  refine ⟨?_, cleanAux_files root _ fs p, fun q => cleanAux_dirs_sub root _ fs p q, ?_, ?_⟩
  · intro h
    rw [clean_empty_dirs, cleanAux]
    rcases h with h | h
    · have hc : ¬ fs.dirs.contains p = true := by rw [h]; exact Bool.false_ne_true
      rw [if_pos hc]
    · by_cases h1 : ¬ fs.dirs.contains p = true
      · rw [if_pos h1]
      · rw [if_neg h1]
        by_cases h2 : root = some p
        · rw [if_pos h2]
        · rw [if_neg h2]
          by_cases h3 : p = []
          · rw [if_pos h3]
          · rw [if_neg h3, if_pos h]
  · intro r hr hmem
    subst hr
    exact cleanAux_keeps_root r _ fs p hmem
  · intro hdir hroot hnil hchild
    have hstep : clean_empty_dirs fs p root
        = cleanAux root p.length (removeDir fs p) (parentOf p) := by
      rw [clean_empty_dirs, cleanAux]
      rw [if_neg (not_not_intro (List.elem_iff.mpr hdir)), if_neg hroot,
        if_neg hnil, if_neg (by simp [hchild])]
    have hlen : p.length = (parentOf p).length + 1 := by
      rw [parentOf, List.length_dropLast]
      have : p.length ≠ 0 := fun h => hnil (List.length_eq_zero.mp h)
      omega
    constructor
    · rw [hstep]
      intro hin
      have := cleanAux_dirs_sub root _ _ _ _ hin
      have := (List.mem_filter.mp this).2
      simp at this
    · rw [hstep, clean_empty_dirs, ← hlen]

/-- Claim C8 witness: in the chain `a/b/c` (all empty of files) with
root floor `a`, cleaning from `a/b/c` removes `a/b/c`, continues at
`a/b`, and the floor `a` survives. -/
theorem clean_empty_dirs_spec_witness :
    ([ "a".toList, "b".toList, "c".toList ] ∉
      (clean_empty_dirs
        { files := [],
          dirs := [[ "a".toList ], [ "a".toList, "b".toList ],
                   [ "a".toList, "b".toList, "c".toList ]] }
        [ "a".toList, "b".toList, "c".toList ] (some [ "a".toList ])).dirs ∧
     clean_empty_dirs
        { files := [],
          dirs := [[ "a".toList ], [ "a".toList, "b".toList ],
                   [ "a".toList, "b".toList, "c".toList ]] }
        [ "a".toList, "b".toList, "c".toList ] (some [ "a".toList ])
       = clean_empty_dirs
          (removeDir
            { files := [],
              dirs := [[ "a".toList ], [ "a".toList, "b".toList ],
                       [ "a".toList, "b".toList, "c".toList ]] }
            [ "a".toList, "b".toList, "c".toList ])
          (parentOf [ "a".toList, "b".toList, "c".toList ]) (some [ "a".toList ])) ∧
    [ "a".toList ] ∈
      (clean_empty_dirs
        { files := [],
          dirs := [[ "a".toList ], [ "a".toList, "b".toList ],
                   [ "a".toList, "b".toList, "c".toList ]] }
        [ "a".toList, "b".toList, "c".toList ] (some [ "a".toList ])).dirs :=
  ⟨(clean_empty_dirs_spec
      { files := [],
        dirs := [[ "a".toList ], [ "a".toList, "b".toList ],
                 [ "a".toList, "b".toList, "c".toList ]] }
      [ "a".toList, "b".toList, "c".toList ] (some [ "a".toList ])).2.2.2.2
      (by decide) (by decide) (by decide) (by decide),
   (clean_empty_dirs_spec
      { files := [],
        dirs := [[ "a".toList ], [ "a".toList, "b".toList ],
                 [ "a".toList, "b".toList, "c".toList ]] }
      [ "a".toList, "b".toList, "c".toList ] (some [ "a".toList ])).2.2.2.1
      [ "a".toList ] rfl (by decide)⟩

theorem pexists_false_iff (fs : FS) (q : MPath) :
    pexists fs q = false ↔ q ∉ fs.files ∧ q ∉ fs.dirs := by
  constructor
  · intro h
    constructor <;> intro hm
    · have : pexists fs q = true := (pexists_iff fs q).mpr (List.mem_append.mpr (Or.inl hm))
      rw [h] at this; exact Bool.noConfusion this
    · have : pexists fs q = true := (pexists_iff fs q).mpr (List.mem_append.mpr (Or.inr hm))
      rw [h] at this; exact Bool.noConfusion this
  · intro ⟨h1, h2⟩
    cases hx : pexists fs q with
    | false => rfl
    | true =>
      rcases List.mem_append.mp ((pexists_iff fs q).mp hx) with h | h
      · exact absurd h h1
      · exact absurd h h2

/-- Evaluation of one undo step when the destination exists and the
source slot is free. -/
theorem undoStep_ok (fs : FS) (n : Nat) (fl : List UndoFailure) (op : MoveOp)
    (hdest : op.dest ∈ fs.files) (hsrc : pexists fs op.src = false) :
    undoStep (fs, n, fl) op =
      (clean_empty_dirs (rawMove (mkdirParents fs (parentOf op.src)) op.dest op.src)
         (parentOf op.dest) none, n + 1, fl) := by
  have h1 : pexists fs op.dest = true :=
    (pexists_iff fs op.dest).mpr (List.mem_append.mpr (Or.inl hdest))
  unfold undoStep
  rw [if_neg (by simp [h1]), if_neg (by simp [hsrc])]

/-- The undo fold over a conflict-free record list restores every
source, removes every destination, records no failure, and only
creates directories that are ancestors of restored sources. -/
theorem undoFold_spec (R : List MoveOp) :
    ∀ (fs0 : FS) (n : Nat) (fl : List UndoFailure),
    (∀ op, op ∈ R → op.dest ∈ fs0.files) →
    (∀ op, op ∈ R → pexists fs0 op.src = false) →
    (R.map (fun o => o.dest)).Nodup →
    (R.map (fun o => o.src)).Nodup →
    (∀ o1, o1 ∈ R → ∀ o2, o2 ∈ R → o1.src ≠ o2.dest) →
    (∀ o1, o1 ∈ R → ∀ o2, o2 ∈ R → ¬ (o1.src <+: parentOf o2.src)) →
    ((R.foldl undoStep (fs0, n, fl)).2.1 = n + R.length ∧
     (R.foldl undoStep (fs0, n, fl)).2.2 = fl) ∧
    (∀ op, op ∈ R → op.src ∈ (R.foldl undoStep (fs0, n, fl)).1.files ∧
                    op.dest ∉ (R.foldl undoStep (fs0, n, fl)).1.files) ∧
    (∀ q, q ∈ (R.foldl undoStep (fs0, n, fl)).1.files →
       q ∈ fs0.files ∨ q ∈ R.map (fun o => o.src)) ∧
    (∀ q, q ∈ fs0.files → q ∉ R.map (fun o => o.dest) →
       q ∈ (R.foldl undoStep (fs0, n, fl)).1.files) ∧
    (∀ q, q ∈ (R.foldl undoStep (fs0, n, fl)).1.dirs →
       q ∈ fs0.dirs ∨ ∃ o, o ∈ R ∧ q <+: parentOf o.src) := by
  induction R with
  | nil =>
    intro fs0 n fl _ _ _ _ _ _
    exact ⟨⟨rfl, rfl⟩, by simp, fun q hq => Or.inl hq, fun q hq _ => hq,
      fun q hq => Or.inl hq⟩
  | cons op₀ R' ih =>
    intro fs0 n fl hd hs nd ns hsd hpre
    have h0dest : op₀.dest ∈ fs0.files := hd op₀ (List.mem_cons_self _ _)
    have h0src : pexists fs0 op₀.src = false := hs op₀ (List.mem_cons_self _ _)
    have h0sd : op₀.src ≠ op₀.dest :=
      hsd op₀ (List.mem_cons_self _ _) op₀ (List.mem_cons_self _ _)
    rw [List.foldl_cons, undoStep_ok fs0 n fl op₀ h0dest h0src]
    set fs1 := mkdirParents fs0 (parentOf op₀.src) with hfs1
    set fs2 := rawMove fs1 op₀.dest op₀.src with hfs2
    set fs3 := clean_empty_dirs fs2 (parentOf op₀.dest) none with hfs3
    have hfs1files : fs1.files = fs0.files := rfl
    have hfs2files : fs2.files = op₀.src :: fs0.files.filter (· ≠ op₀.dest) := by
      rw [hfs2, rawMove, if_pos (by rw [hfs1files]; exact h0dest)]; rfl
    have hfs3files : fs3.files = op₀.src :: fs0.files.filter (· ≠ op₀.dest) := by
      rw [hfs3, clean_empty_dirs, cleanAux_files, hfs2files]
    have hfs2dirs : fs2.dirs = (parentOf op₀.src).inits ++ fs0.dirs := by
      rw [hfs2, rawMove, if_pos (by rw [hfs1files]; exact h0dest)]; rfl
    have hfs3dirs : ∀ q, q ∈ fs3.dirs → q <+: parentOf op₀.src ∨ q ∈ fs0.dirs := by
      intro q hq
      have := cleanAux_dirs_sub none _ fs2 (parentOf op₀.dest) q hq
      rw [hfs2dirs] at this
      rcases List.mem_append.mp this with h | h
      · exact Or.inl ((List.mem_inits q _).mp h)
      · exact Or.inr h
    have hmemfil : ∀ q, q ∈ fs0.files → q ≠ op₀.dest → q ∈ fs3.files := by
      intro q hq hne
      rw [hfs3files]
      exact List.mem_cons_of_mem _ (List.mem_filter.mpr ⟨hq, by simp [hne]⟩)
    have hnotdest : op₀.dest ∉ fs3.files := by
      rw [hfs3files]
      intro hmem
      rcases List.mem_cons.mp hmem with h | h
      · exact h0sd h.symm
      · have := (List.mem_filter.mp h).2
        simp at this
    have hsrc0ne : op₀.src ∉ R'.map (fun o => o.src) := by
      have := ns
      rw [List.map_cons, List.nodup_cons] at this
      exact this.1
    have hdest0ne : op₀.dest ∉ R'.map (fun o => o.dest) := by
      have := nd
      rw [List.map_cons, List.nodup_cons] at this
      exact this.1
    -- hypotheses of the induction for the remaining records over fs3
    have hd' : ∀ op, op ∈ R' → op.dest ∈ fs3.files := by
      intro op hop
      refine hmemfil op.dest (hd op (List.mem_cons_of_mem _ hop)) ?_
      intro heq
      exact hdest0ne (heq ▸ List.mem_map_of_mem (fun o => o.dest) hop)
    have hs' : ∀ op, op ∈ R' → pexists fs3 op.src = false := by
      intro op hop
      have hsop := (pexists_false_iff fs0 op.src).mp (hs op (List.mem_cons_of_mem _ hop))
      refine (pexists_false_iff fs3 op.src).mpr ⟨?_, ?_⟩
      · rw [hfs3files]
        intro hmem
        rcases List.mem_cons.mp hmem with h | h
        · exact hsrc0ne (h ▸ List.mem_map_of_mem (fun o => o.src) hop)
        · exact hsop.1 (List.mem_filter.mp h).1
      · intro hmem
        rcases hfs3dirs op.src hmem with h | h
        · exact hpre op (List.mem_cons_of_mem _ hop) op₀ (List.mem_cons_self _ _) h
        · exact hsop.2 h
    have nd' : (R'.map (fun o => o.dest)).Nodup := by
      have := nd; rw [List.map_cons, List.nodup_cons] at this; exact this.2
    have ns' : (R'.map (fun o => o.src)).Nodup := by
      have := ns; rw [List.map_cons, List.nodup_cons] at this; exact this.2
    have hsd' : ∀ o1, o1 ∈ R' → ∀ o2, o2 ∈ R' → o1.src ≠ o2.dest := fun o1 h1 o2 h2 =>
      hsd o1 (List.mem_cons_of_mem _ h1) o2 (List.mem_cons_of_mem _ h2)
    have hpre' : ∀ o1, o1 ∈ R' → ∀ o2, o2 ∈ R' → ¬ (o1.src <+: parentOf o2.src) :=
      fun o1 h1 o2 h2 =>
        hpre o1 (List.mem_cons_of_mem _ h1) o2 (List.mem_cons_of_mem _ h2)
    obtain ⟨⟨hcnt, hflr⟩, hops, honly, hkeep, hdirs⟩ := ih fs3 (n + 1) fl hd' hs' nd' ns' hsd' hpre'
    refine ⟨⟨by rw [hcnt, List.length_cons]; omega, hflr⟩, ?_, ?_, ?_, ?_⟩
    · intro op hop
      rcases List.mem_cons.mp hop with rfl | hop'
      · constructor
        · refine hkeep op.src (by rw [hfs3files]; exact List.mem_cons_self _ _) ?_
          intro hmem
          obtain ⟨o, ho, heq⟩ := List.mem_map.mp hmem
          exact hsd op (List.mem_cons_self _ _) o (List.mem_cons_of_mem _ ho) heq.symm
        · intro hmem
          rcases honly op.dest hmem with h | h
          · exact hnotdest h
          · obtain ⟨o, ho, heq⟩ := List.mem_map.mp h
            exact hsd o (List.mem_cons_of_mem _ ho) op (List.mem_cons_self _ _) heq
      · exact hops op hop'
    · intro q hq
      rcases honly q hq with h | h
      · rw [hfs3files] at h
        rcases List.mem_cons.mp h with h | h
        · exact Or.inr (by rw [h, List.map_cons]; exact List.mem_cons_self _ _)
        · exact Or.inl (List.mem_filter.mp h).1
      · exact Or.inr (by rw [List.map_cons]; exact List.mem_cons_of_mem _ h)
    · intro q hq hnd
      rw [List.map_cons] at hnd
      refine hkeep q (hmemfil q hq ?_) ?_
      · intro heq
        exact hnd (heq ▸ List.mem_cons_self _ _)
      · intro hmem
        exact hnd (List.mem_cons_of_mem _ hmem)
    · intro q hq
      rcases hdirs q hq with h | ⟨o, ho, hpref⟩
      · rcases hfs3dirs q h with h' | h'
        · exact Or.inr ⟨op₀, List.mem_cons_self _ _, h'⟩
        · exact Or.inl h'
      · exact Or.inr ⟨o, List.mem_cons_of_mem _ ho, hpref⟩

/-- Claim C5: `undo_last_batch` on a non-empty history processes the
newest batch's records in reverse order and pops the batch regardless
of failures; a record whose destination is missing or whose source
slot is occupied yields a per-file failure and leaves the filesystem
untouched; and under conflict-freeness (destinations present and
pairwise distinct, sources free and pairwise distinct, no source equal
to a destination, no source an ancestor of another source's parent)
every destination file is restored to its original source path with no
failures reported. -/
theorem undo_last_batch_spec (batch : List MoveOp) (rest : List (List MoveOp)) (fs : FS) :
    (undo_last_batch (batch :: rest) fs).1 = rest ∧
    (undo_last_batch (batch :: rest) fs).2.1 = (batch.reverse.foldl undoStep (fs, 0, [])).1 ∧
    (∀ (g : FS) (n : Nat) (fl : List UndoFailure) (op : MoveOp),
       pexists g op.dest = false →
       undoStep (g, n, fl) op = (g, n, fl ++ [UndoFailure.missingDest op.dest])) ∧
    (∀ (g : FS) (n : Nat) (fl : List UndoFailure) (op : MoveOp),
       pexists g op.dest = true → pexists g op.src = true →
       undoStep (g, n, fl) op = (g, n, fl ++ [UndoFailure.occupiedSrc op.src])) ∧
    (((∀ op, op ∈ batch → op.dest ∈ fs.files) ∧
      (∀ op, op ∈ batch → pexists fs op.src = false) ∧
      (batch.map (fun o => o.dest)).Nodup ∧
      (batch.map (fun o => o.src)).Nodup ∧
      (∀ o1, o1 ∈ batch → ∀ o2, o2 ∈ batch → o1.src ≠ o2.dest) ∧
      (∀ o1, o1 ∈ batch → ∀ o2, o2 ∈ batch → ¬ (o1.src <+: parentOf o2.src))) →
      (undo_last_batch (batch :: rest) fs).2.2.success = true ∧
      (undo_last_batch (batch :: rest) fs).2.2.failures = some [] ∧
      (undo_last_batch (batch :: rest) fs).2.2.failureCount = some 0 ∧
      (undo_last_batch (batch :: rest) fs).2.2.restoredCount = some batch.length ∧
      (∀ op, op ∈ batch →
        op.src ∈ (undo_last_batch (batch :: rest) fs).2.1.files ∧
        op.dest ∉ (undo_last_batch (batch :: rest) fs).2.1.files)) := by
  refine ⟨rfl, rfl, ?_, ?_, ?_⟩
  · intro g n fl op h
    unfold undoStep
    rw [if_pos h]
  · intro g n fl op h1 h2
    unfold undoStep
    rw [if_neg (by simp [h1]), if_pos (by simp [h2])]
  · rintro ⟨hd, hs, nd, ns, hsd, hpre⟩
    have hd' : ∀ op, op ∈ batch.reverse → op.dest ∈ fs.files := fun op hop =>
      hd op (List.mem_reverse.mp hop)
    have hs' : ∀ op, op ∈ batch.reverse → pexists fs op.src = false := fun op hop =>
      hs op (List.mem_reverse.mp hop)
    have nd' : (batch.reverse.map (fun o => o.dest)).Nodup := by
      rw [List.map_reverse, List.nodup_reverse]; exact nd
    have ns' : (batch.reverse.map (fun o => o.src)).Nodup := by
      rw [List.map_reverse, List.nodup_reverse]; exact ns
    have hsd' : ∀ o1, o1 ∈ batch.reverse → ∀ o2, o2 ∈ batch.reverse → o1.src ≠ o2.dest :=
      fun o1 h1 o2 h2 => hsd o1 (List.mem_reverse.mp h1) o2 (List.mem_reverse.mp h2)
    have hpre' : ∀ o1, o1 ∈ batch.reverse → ∀ o2, o2 ∈ batch.reverse →
        ¬ (o1.src <+: parentOf o2.src) :=
      fun o1 h1 o2 h2 => hpre o1 (List.mem_reverse.mp h1) o2 (List.mem_reverse.mp h2)
    obtain ⟨⟨hcnt, hflr⟩, hops, _, _, _⟩ :=
      undoFold_spec batch.reverse fs 0 [] hd' hs' nd' ns' hsd' hpre'
    have hres : (undo_last_batch (batch :: rest) fs).2.1
        = (batch.reverse.foldl undoStep (fs, 0, [])).1 := rfl
    refine ⟨rfl, ?_, ?_, ?_, ?_⟩
    · show some (batch.reverse.foldl undoStep (fs, 0, [])).2.2 = some []
      rw [hflr]
    · show some (batch.reverse.foldl undoStep (fs, 0, [])).2.2.length = some 0
      rw [hflr]; rfl
    · show some (batch.reverse.foldl undoStep (fs, 0, [])).2.1 = some batch.length
      rw [hcnt, List.length_reverse, Nat.zero_add]
    · intro op hop
      rw [hres]
      exact hops op (List.mem_reverse.mpr hop)

/-- Claim C5 witness: undoing a concrete conflict-free two-move batch
restores both files and pops the batch. -/
theorem undo_last_batch_spec_witness :
    (undo_last_batch
      [[ { src := [ "s".toList, "x.mkv".toList ], dest := [ "m".toList, "x2.mkv".toList ] },
         { src := [ "s".toList, "y.mkv".toList ], dest := [ "m".toList, "y2.mkv".toList ] } ]]
      { files := [[ "m".toList, "x2.mkv".toList ], [ "m".toList, "y2.mkv".toList ]],
        dirs := [[ "m".toList ]] }).1 = [] ∧
    ((undo_last_batch
      [[ { src := [ "s".toList, "x.mkv".toList ], dest := [ "m".toList, "x2.mkv".toList ] },
         { src := [ "s".toList, "y.mkv".toList ], dest := [ "m".toList, "y2.mkv".toList ] } ]]
      { files := [[ "m".toList, "x2.mkv".toList ], [ "m".toList, "y2.mkv".toList ]],
        dirs := [[ "m".toList ]] }).2.2.failures = some [] ∧
     (undo_last_batch
      [[ { src := [ "s".toList, "x.mkv".toList ], dest := [ "m".toList, "x2.mkv".toList ] },
         { src := [ "s".toList, "y.mkv".toList ], dest := [ "m".toList, "y2.mkv".toList ] } ]]
      { files := [[ "m".toList, "x2.mkv".toList ], [ "m".toList, "y2.mkv".toList ]],
        dirs := [[ "m".toList ]] }).2.2.restoredCount = some 2 ∧
     (∀ op, op ∈
        ([ { src := [ "s".toList, "x.mkv".toList ], dest := [ "m".toList, "x2.mkv".toList ] },
           { src := [ "s".toList, "y.mkv".toList ], dest := [ "m".toList, "y2.mkv".toList ] } ] : List MoveOp) →
        op.src ∈ (undo_last_batch
          [[ { src := [ "s".toList, "x.mkv".toList ], dest := [ "m".toList, "x2.mkv".toList ] },
             { src := [ "s".toList, "y.mkv".toList ], dest := [ "m".toList, "y2.mkv".toList ] } ]]
          { files := [[ "m".toList, "x2.mkv".toList ], [ "m".toList, "y2.mkv".toList ]],
            dirs := [[ "m".toList ]] }).2.1.files)) :=
  ⟨(undo_last_batch_spec
      [ { src := [ "s".toList, "x.mkv".toList ], dest := [ "m".toList, "x2.mkv".toList ] },
        { src := [ "s".toList, "y.mkv".toList ], dest := [ "m".toList, "y2.mkv".toList ] } ] []
      { files := [[ "m".toList, "x2.mkv".toList ], [ "m".toList, "y2.mkv".toList ]],
        dirs := [[ "m".toList ]] }).1,
   by
    obtain ⟨-, -, -, -, h⟩ := undo_last_batch_spec
      [ { src := [ "s".toList, "x.mkv".toList ], dest := [ "m".toList, "x2.mkv".toList ] },
        { src := [ "s".toList, "y.mkv".toList ], dest := [ "m".toList, "y2.mkv".toList ] } ] []
      { files := [[ "m".toList, "x2.mkv".toList ], [ "m".toList, "y2.mkv".toList ]],
        dirs := [[ "m".toList ]] }
    obtain ⟨-, hfail, -, hcnt, hops⟩ := h (by
      refine ⟨by decide, by decide, by decide, by decide, by decide, by decide⟩)
    exact ⟨hfail, hcnt, fun op hop => (hops op hop).1⟩⟩

theorem natReprAux_small (fuel n : Nat) (h : n < 10) (hf : 1 ≤ fuel) :
    natReprAux fuel n = [Nat.digitChar n] := by
  cases fuel with
  | zero => omega
  | succ f => rw [natReprAux, if_pos h]

theorem natReprL_two_digits (n : Nat) (h1 : 10 ≤ n) (h2 : n < 100) :
    natReprL n = [Nat.digitChar (n / 10), Nat.digitChar (n % 10)] := by
  rw [natReprL, natReprAux, if_neg (by omega), natReprAux_small n (n / 10) (by omega) (by omega)]
  rfl

theorem pad2_length_two (n : Nat) (h : n < 100) : (pad2 (some n)).length = 2 := by
  by_cases h10 : n < 10
  · rw [pad2, if_pos h10, natReprL, natReprAux_small _ n h10 (by omega)]
    rfl
  · rw [pad2, if_neg h10, natReprL_two_digits n (by omega) h]
    rfl

theorem digitsVal_cons2 (a b : Char) : digitsVal [a, b] = 10 * digitVal a + digitVal b := by
  simp only [digitsVal, List.foldl]
  omega

theorem digitsVal_pad2 (n : Nat) : digitsVal (pad2 (some n)) = n := by
  by_cases h10 : n < 10
  · rw [pad2, if_pos h10, natReprL, natReprAux_small _ n h10 (by omega), digitsVal_cons2,
      digitVal_digitChar n h10]
    have h0 : digitVal '0' = 0 := by decide
    omega
  · rw [pad2, if_neg h10, digitsVal_natReprL]

theorem replaceAux_single_not_mem (c : Char) (rep : List Char) (hrep : c ∉ rep) :
    ∀ fuel s, s.length ≤ fuel → c ∉ replaceAux [c] rep fuel s := by
  intro fuel
  induction fuel with
  | zero =>
    intro s hs
    have : s = [] := List.length_eq_zero.mp (by omega)
    subst this
    simp [replaceAux]
  | succ f ih =>
    intro s hs
    match s with
    | [] => simp [replaceAux]
    | a :: rest =>
      rw [replaceAux]
      by_cases hcond : ([c] ≠ [] ∧ ([c] : List Char).isPrefixOf (a :: rest))
      · rw [if_pos hcond]
        intro hmem
        rcases List.mem_append.mp hmem with h | h
        · exact hrep h
        · have hlen : (List.drop 1 (a :: rest)).length ≤ f := by
            simp only [List.drop_one, List.tail_cons]
            simpa using Nat.le_of_succ_le_succ hs
          exact ih _ hlen (by simpa using h)
      · rw [if_neg hcond]
        intro hmem
        rcases List.mem_cons.mp hmem with h | h
        · apply hcond
          refine ⟨by simp, ?_⟩
          rw [← h]
          simp [List.isPrefixOf]
        · exact ih rest (by simpa using Nat.le_of_succ_le_succ hs) h

theorem mem_pyStrip (cs s : List Char) (x : Char) (h : x ∈ pyStrip cs s) : x ∈ s := by
  rw [pyStrip] at h
  have h1 := List.mem_reverse.mp h
  have h2 := (List.dropWhile_sublist _).mem h1
  have h3 := List.mem_reverse.mp h2
  exact (List.dropWhile_sublist _).mem h3

theorem colon_not_mem_cleanupRendered (rel : List Char) : ':' ∉ cleanupRendered rel := by
  intro h
  have h1 := mem_pyStrip _ _ _ h
  exact replaceAux_single_not_mem ':' [' ', '-'] (by decide) _ _ (Nat.le_refl _) h1

/-- Claim C9: `propose_new_path` returns the original filename for an
identity type outside movie/tv/book/audiobook, and also when the
selected template references a key absent from the context; otherwise
it renders the selected template over a context in which season and
episode are zero-padded to two digits (absent → "00"), a missing or
empty episode title defaults to "Episode <episode>", a missing title
defaults to "Unknown", and no colon survives in the result. -/
theorem propose_new_path_spec (cfg : Templates) (name : List Char) (md : Meta) :
    (md.mtype ≠ some "movie" → md.mtype ≠ some "tv" → md.mtype ≠ some "book" →
      md.mtype ≠ some "audiobook" → propose_new_path cfg name md = name) ∧
    (∀ t, selectedTemplate cfg md = some t →
      renderTemplate (buildCtx md (suffixOf name)
        (decide (md.mtype = some "book" ∨ md.mtype = some "audiobook"))) t = none →
      propose_new_path cfg name md = name) ∧
    (∀ b ext, md.season = none → buildCtx md ext b "season" = some ("00".toList)) ∧
    (∀ b ext n, md.season = some n → n < 100 →
      ∃ ds, buildCtx md ext b "season" = some ds ∧ ds.length = 2 ∧ digitsVal ds = n) ∧
    (∀ b ext n, md.episode = some n → n < 100 →
      ∃ ds, buildCtx md ext b "episode" = some ds ∧ ds.length = 2 ∧ digitsVal ds = n) ∧
    (∀ b ext, md.episodeTitle = none ∨ md.episodeTitle = some [] →
      buildCtx md ext b "episode_title" = some ("Episode ".toList ++ pad2 md.episode)) ∧
    (∀ b ext, md.title = none → buildCtx md ext b "title" = some ("Unknown".toList)) ∧
    (∀ t rel, selectedTemplate cfg md = some t →
      renderTemplate (buildCtx md (suffixOf name)
        (decide (md.mtype = some "book" ∨ md.mtype = some "audiobook"))) t = some rel →
      propose_new_path cfg name md = cleanupRendered rel ∧
      ':' ∉ propose_new_path cfg name md) := by
  refine ⟨?_, ?_, ?_, ?_, ?_, ?_, ?_, ?_⟩
  · intro h1 h2 h3 h4
    rw [propose_new_path]
    have hsel : selectedTemplate cfg md = none := by
      rw [selectedTemplate, if_neg h1, if_neg h2, if_neg (by tauto)]
    rw [hsel]
  · intro t hsel hren
    rw [propose_new_path]
    rw [hsel]
    simp only []
    rw [hren]
  · intro b ext hnone
    simp [buildCtx, hnone, pad2]
  · intro b ext n hsome hlt
    exact ⟨pad2 (some n), by simp [buildCtx, hsome], pad2_length_two n hlt, digitsVal_pad2 n⟩
  · intro b ext n hsome hlt
    exact ⟨pad2 (some n), by simp [buildCtx, hsome], pad2_length_two n hlt, digitsVal_pad2 n⟩
  · intro b ext hcase
    rcases hcase with h | h <;> simp [buildCtx, h]
  · intro b ext hnone
    simp [buildCtx, hnone]
  · intro t rel hsel hren
    have hprop : propose_new_path cfg name md = cleanupRendered rel := by
      rw [propose_new_path]
      rw [hsel]
      simp only []
      rw [hren]
    exact ⟨hprop, hprop ▸ colon_not_mem_cleanupRendered rel⟩

/-- Claim C9 witness: an unrecognized type falls back to the original
filename, and a rendered movie path has its colon replaced. -/
theorem propose_new_path_spec_witness :
    propose_new_path
      { movie := [TItem.field "title", TItem.lit "/x".toList, TItem.field "ext"],
        tv := [], book := [], audiobook := [] }
      "orig.mkv".toList { mtype := some "weird" } = "orig.mkv".toList ∧
    propose_new_path
      { movie := [TItem.field "title", TItem.lit "/x".toList, TItem.field "ext"],
        tv := [], book := [], audiobook := [] }
      "orig.mkv".toList { mtype := some "movie", title := some "A: B".toList }
      = cleanupRendered "A: B/x.mkv".toList ∧
    ':' ∉ propose_new_path
      { movie := [TItem.field "title", TItem.lit "/x".toList, TItem.field "ext"],
        tv := [], book := [], audiobook := [] }
      "orig.mkv".toList { mtype := some "movie", title := some "A: B".toList } :=
  ⟨(propose_new_path_spec
      { movie := [TItem.field "title", TItem.lit "/x".toList, TItem.field "ext"],
        tv := [], book := [], audiobook := [] }
      "orig.mkv".toList { mtype := some "weird" }).1
      (by decide) (by decide) (by decide) (by decide),
   ((propose_new_path_spec
      { movie := [TItem.field "title", TItem.lit "/x".toList, TItem.field "ext"],
        tv := [], book := [], audiobook := [] }
      "orig.mkv".toList { mtype := some "movie", title := some "A: B".toList }).2.2.2.2.2.2.2
      [TItem.field "title", TItem.lit "/x".toList, TItem.field "ext"]
      "A: B/x.mkv".toList rfl (by decide)).1,
   ((propose_new_path_spec
      { movie := [TItem.field "title", TItem.lit "/x".toList, TItem.field "ext"],
        tv := [], book := [], audiobook := [] }
      "orig.mkv".toList { mtype := some "movie", title := some "A: B".toList }).2.2.2.2.2.2.2
      [TItem.field "title", TItem.lit "/x".toList, TItem.field "ext"]
      "A: B/x.mkv".toList rfl (by decide)).2⟩

/-- Claim C6 witness: on a filesystem where `a/file.txt` exists, the
collision branch of the theorem yields the least free counter. -/
theorem get_unique_path_move_file_spec_witness :
    pexists { files := [[ "a".toList, "file.txt".toList ]], dirs := [[ "a".toList ]] }
      [ "a".toList, "file.txt".toList ] = true ∧
    (∃ n, 1 ≤ n ∧
      get_unique_path { files := [[ "a".toList, "file.txt".toList ]], dirs := [[ "a".toList ]] }
        [ "a".toList, "file.txt".toList ]
        = candPath [ "a".toList, "file.txt".toList ] n ∧
      pexists { files := [[ "a".toList, "file.txt".toList ]], dirs := [[ "a".toList ]] }
        (candPath [ "a".toList, "file.txt".toList ] n) = false ∧
      ∀ m, 1 ≤ m → m < n →
        pexists { files := [[ "a".toList, "file.txt".toList ]], dirs := [[ "a".toList ]] }
          (candPath [ "a".toList, "file.txt".toList ] m) = true) :=
  ⟨by decide,
   (get_unique_path_move_file_spec
     { files := [[ "a".toList, "file.txt".toList ]], dirs := [[ "a".toList ]] }
     [ "a".toList, "file.txt".toList ]).2.2.1 (by decide)⟩

/-- Claim C10: with an empty undo history, `undo_last_batch` returns
`success = False` with the message "No history found.", performs no
filesystem operation, and leaves the persisted history unchanged. -/
theorem undo_last_batch_empty_history (fs : FS) :
    undo_last_batch [] fs =
      ([], fs, { success := false, message := some "No history found." }) := rfl

/-- Claim C1 (divergence witness): the call of `renamer.get_candidates`
in `process_file` passes the keyword `cached_all_candidates`, which is
not a parameter of `Renamer.get_candidates`; the resulting `TypeError`
is caught by the handler, so `process_file` returns `None` for every
file and never creates (or upgrades) a `FolderContext` entry. -/
theorem process_file_never_registers_context
    (oracle : AMeta → Option SeasonData → List Cand)
    (seasonOracle : Nat → Nat → Option SeasonData)
    (fc : List (MPath × FolderCtx)) (sc : List ((Nat × Nat) × SeasonData))
    (dirPath : MPath) (parentName grandName name : List Char) :
    (process_file oracle seasonOracle fc sc dirPath parentName grandName name).1 = none ∧
    (process_file oracle seasonOracle fc sc dirPath parentName grandName name).2.1 = fc := by
  have h : getCandidatesCallOk = false := rfl
  simp [process_file, h]

/-- Claim C4 (amended): an established TV `FolderContext` of a
non-mixed directory is never applied to a file whose parsed title is
longer than 2 characters and shares no substring relation (in either
direction, after lowercasing and mapping `.`/`-` to spaces) with the
cached title; the metadata is returned unchanged with
`using_cache = False`. -/
theorem cacheApply_cache_isolation (md : AMeta) (c : FolderCtx) (parentName : List Char)
    (hmix : isMixedDir parentName = false)
    (htv : c.ctype = "tv")
    (hlen : (pyStrip pyWs md.info.title).length > 2)
    (h1 : isSubstr (normTitle (pyStrip pyWs md.info.title))
            (normTitle (pyStrip pyWs c.title)) = false)
    (h2 : isSubstr (normTitle (pyStrip pyWs c.title))
            (normTitle (pyStrip pyWs md.info.title)) = false) :
    cacheApply md (some c) parentName = (md, false) := by
  have hne : (pyStrip pyWs md.info.title).isEmpty = false := by
    cases hp : pyStrip pyWs md.info.title with
    | nil => rw [hp] at hlen; simp at hlen
    | cons a l => rfl
  have hl : decide ((pyStrip pyWs md.info.title).length > 2) = true := decide_eq_true hlen
  simp [cacheApply, hne, h1, h2, hmix, htv, hl]

/-- Claim C4 (counterexample to the claim as stated): a parsed title of
length ≤ 2 ("XY") shares no substring relation with the cached title
"Breaking Bad", yet the cache is applied (the short-title exemption of
api.py line 181). -/
theorem cacheApply_short_title_counterexample :
    isSubstr (normTitle (pyStrip pyWs "XY".toList))
      (normTitle (pyStrip pyWs "Breaking Bad".toList)) = false ∧
    isSubstr (normTitle (pyStrip pyWs "Breaking Bad".toList))
      (normTitle (pyStrip pyWs "XY".toList)) = false ∧
    (cacheApply { info := { ptype := "tv", title := "XY".toList } }
      (some { ctype := "tv", title := "Breaking Bad".toList }) "TV".toList).2 = true ∧
    (cacheApply { info := { ptype := "tv", title := "XY".toList } }
      (some { ctype := "tv", title := "Breaking Bad".toList }) "TV".toList).1.info.title
      = "Breaking Bad".toList := by
  decide

/-- Claim C4 witness: the amended isolation theorem applied to the
concrete mismatch "Pokemon" vs cached "Breaking Bad". -/
theorem cacheApply_cache_isolation_witness :
    cacheApply { info := { ptype := "tv", title := "Pokemon".toList } }
      (some { ctype := "tv", title := "Breaking Bad".toList }) "TV".toList
      = ({ info := { ptype := "tv", title := "Pokemon".toList } }, false) :=
  cacheApply_cache_isolation
    { info := { ptype := "tv", title := "Pokemon".toList } }
    { ctype := "tv", title := "Breaking Bad".toList } "TV".toList
    (by decide) (by decide) (by decide) (by decide) (by decide)

theorem findSome?_isSome_of_mem {α β : Type} (l : List α) (f : α → Option β) (a : α)
    (ha : a ∈ l) (hf : (f a).isSome = true) : (l.findSome? f).isSome = true := by
  induction l with
  | nil => simp at ha
  | cons x xs ih =>
    rw [List.findSome?]
    cases hx : f x with
    | some b => rfl
    | none =>
      rcases List.mem_cons.mp ha with rfl | ha'
      · rw [hx] at hf; exact Bool.noConfusion hf
      · exact ih ha'

theorem digits12_sound (l : List Char) :
    ∀ p, p ∈ digits12 l → l = p.1 ++ p.2 ∧ digitsOk p.1 := by
  intro p hp
  match l with
  | [] => simp [digits12] at hp
  | [a] =>
    rw [digits12] at hp
    by_cases ha : isDigitCh a = true
    · rw [if_pos ha] at hp
      rcases List.mem_singleton.mp hp with rfl
      exact ⟨rfl, by simp, by simp, fun c hc => by
        rcases List.mem_singleton.mp hc with rfl; exact ha⟩
    · rw [if_neg ha] at hp; simp at hp
  | a :: b :: rest =>
    rw [digits12] at hp
    rcases List.mem_append.mp hp with h | h
    · by_cases hab : (isDigitCh a && isDigitCh b) = true
      · rw [if_pos hab] at h
        rcases List.mem_singleton.mp h with rfl
        rw [Bool.and_eq_true] at hab
        refine ⟨rfl, by simp, by simp, ?_⟩
        intro c hc
        rcases List.mem_cons.mp hc with rfl | hc'
        · exact hab.1
        · rcases List.mem_singleton.mp hc' with rfl
          exact hab.2
      · rw [if_neg hab] at h; simp at h
    · by_cases ha : isDigitCh a = true
      · rw [if_pos ha] at h
        rcases List.mem_singleton.mp h with rfl
        exact ⟨rfl, by simp, by simp, fun c hc => by
          rcases List.mem_singleton.mp hc with rfl; exact ha⟩
      · rw [if_neg ha] at h; simp at h

theorem digits12_mem_one (a : Char) (tail : List Char) (ha : isDigitCh a = true) :
    ([a], tail) ∈ digits12 (a :: tail) := by
  match tail with
  | [] => rw [digits12, if_pos ha]; exact List.mem_singleton.mpr rfl
  | b :: r =>
    rw [digits12]
    refine List.mem_append.mpr (Or.inr ?_)
    rw [if_pos ha]
    exact List.mem_singleton.mpr rfl

theorem digits12_mem_two (a b : Char) (tail : List Char)
    (ha : isDigitCh a = true) (hb : isDigitCh b = true) :
    ([a, b], tail) ∈ digits12 (a :: b :: tail) := by
  rw [digits12]
  refine List.mem_append.mpr (Or.inl ?_)
  rw [if_pos (by rw [ha, hb]; rfl)]
  exact List.mem_singleton.mpr rfl

theorem digits12_mem (d : List Char) (tail : List Char) (hd : digitsOk d) :
    (d, tail) ∈ digits12 (d ++ tail) := by
  obtain ⟨hne, hlen, hdig⟩ := hd
  match d, hne, hlen with
  | [a], _, _ => exact digits12_mem_one a tail (hdig a (by simp))
  | [a, b], _, _ =>
    exact digits12_mem_two a b tail (hdig a (by simp)) (hdig b (by simp))

theorem tvTail4_eq (r : List Char) (g4 : Option (List Char))
    (h : tvTail4 r = some g4) : g4 = tvG4 r := by
  rw [tvTail4] at h
  by_cases hc : (tvG4 r).any (fun g => g.contains '\n') = true
  · rw [if_pos hc] at h; exact Option.noConfusion h
  · rw [if_neg hc] at h; exact (Option.some.inj h).symm

theorem tvTail4_isSome (r : List Char) (h : '\n' ∉ r) : (tvTail4 r).isSome = true := by
  rw [tvTail4]
  have hng : ¬ (tvG4 r).any (fun g => g.contains '\n') = true := by
    intro hcon
    apply h
    cases hg : tvG4 r with
    | none => rw [hg] at hcon; exact Bool.noConfusion hcon
    | some g =>
      rw [hg] at hcon
      have hmem : '\n' ∈ g := List.elem_iff.mp (by simpa [Option.any] using hcon)
      rw [tvG4] at hg
      split at hg
      · exact Option.noConfusion hg
      · have := Option.some.inj hg
        rw [← this] at hmem
        exact (List.drop_sublist _ _).mem hmem
  rw [if_neg hng]
  rfl

theorem tvSETail_sound (l : List Char) (n m : Nat) (g4 : Option (List Char))
    (h : tvSETail l = some (n, m, g4)) :
    ∃ sc d ec e r, l = sc :: (d ++ ec :: (e ++ r)) ∧
      (sc = 's' ∨ sc = 'S') ∧ (ec = 'e' ∨ ec = 'E') ∧
      digitsOk d ∧ digitsOk e ∧ n = digitsVal d ∧ m = digitsVal e ∧
      tvTail4 r = some g4 := by
  match l with
  | [] => exact Option.noConfusion h
  | sc :: rest =>
    rw [tvSETail] at h
    by_cases hsc : (sc = 's' ∨ sc = 'S')
    · rw [if_pos hsc] at h
      obtain ⟨p, hp, hfp⟩ := List.exists_of_findSome?_eq_some h
      obtain ⟨hrest, hdOk⟩ := digits12_sound rest p hp
      match hp2 : p.2, hfp with
      | [], hfp => exact Option.noConfusion hfp
      | ec :: rest3, hfp =>
        rw [tvSETailE] at hfp
        by_cases hec : (ec = 'e' ∨ ec = 'E')
        · rw [if_pos hec] at hfp
          obtain ⟨q, hq, hfq⟩ := List.exists_of_findSome?_eq_some hfp
          obtain ⟨hrest3, heOk⟩ := digits12_sound rest3 q hq
          obtain ⟨g4', hg4', heq⟩ := Option.map_eq_some'.mp hfq
          obtain ⟨hn, hm, hg⟩ : digitsVal p.1 = n ∧ digitsVal q.1 = m ∧ g4' = g4 := by
            simpa [Prod.ext_iff] using heq
          refine ⟨sc, p.1, ec, q.1, q.2, ?_, hsc, hec, hdOk, heOk, hn.symm, hm.symm, ?_⟩
          · rw [hrest, hp2, hrest3]
          · rw [← hg]; exact hg4'
        · rw [if_neg hec] at hfp
          exact Option.noConfusion hfp
    · rw [if_neg hsc] at h
      exact Option.noConfusion h

theorem tvSETail_complete (sc ec : Char) (d e r : List Char)
    (hsc : sc = 's' ∨ sc = 'S') (hec : ec = 'e' ∨ ec = 'E')
    (hd : digitsOk d) (he : digitsOk e) (hrn : '\n' ∉ r) :
    (tvSETail (sc :: (d ++ ec :: (e ++ r)))).isSome = true := by
  rw [tvSETail, if_pos hsc]
  refine findSome?_isSome_of_mem _ _ (d, ec :: (e ++ r)) (digits12_mem d _ hd) ?_
  rw [tvSETailE, if_pos hec]
  refine findSome?_isSome_of_mem _ _ (e, r) (digits12_mem e r he) ?_
  obtain ⟨x, hx⟩ := Option.isSome_iff_exists.mp (tvTail4_isSome r hrn)
  show (Option.map (fun g4 => (digitsVal d, digitsVal e, g4)) (tvTail4 r)).isSome = true
  rw [hx]
  rfl

theorem tvInner_sound (l : List Char) :
    ∀ acc t n m g4, tvInner acc l = some (t, n, m, g4) →
    ∃ t₀ sep tail, l = t₀ ++ sep :: tail ∧ t = acc ++ t₀ ∧ '\n' ∉ t₀ ∧
      (sep = ' ' ∨ sep = '.') ∧ acc ++ t₀ ≠ [] ∧ tvSETail tail = some (n, m, g4) := by
  induction l with
  | nil => intro acc t n m g4 h; exact Option.noConfusion h
  | cons c rest ih =>
    intro acc t n m g4 h
    rw [tvInner] at h
    split at h
    · rename_i n' m' g4' heq
      have h' : acc = t ∧ n' = n ∧ m' = m ∧ g4' = g4 := by
        simpa [Prod.ext_iff] using Option.some.inj h
      obtain ⟨rfl, rfl, rfl, rfl⟩ := h'
      by_cases hcond : (acc ≠ [] ∧ (c = ' ' ∨ c = '.'))
      · rw [if_pos hcond] at heq
        exact ⟨[], c, rest, by simp, by simp, by simp, hcond.2, by simpa using hcond.1, heq⟩
      · rw [if_neg hcond] at heq
        exact Option.noConfusion heq
    · split at h
      · exact Option.noConfusion h
      · rename_i hnl
        obtain ⟨t₀', sep, tail, hrest, ht, hnl', hsep, hne, hse⟩ := ih (acc ++ [c]) t n m g4 h
        refine ⟨c :: t₀', sep, tail, by rw [hrest]; rfl, by rw [ht]; simp, ?_, hsep, by simp, hse⟩
        intro hmem
        rcases List.mem_cons.mp hmem with heq2 | hmem'
        · exact hnl heq2.symm
        · exact hnl' hmem'

theorem tvInner_complete (t : List Char) :
    ∀ acc tail (sep : Char), '\n' ∉ t → (sep = ' ' ∨ sep = '.') → acc ++ t ≠ [] →
    (tvSETail tail).isSome = true →
    (tvInner acc (t ++ sep :: tail)).isSome = true := by
  induction t with
  | nil =>
    intro acc tail sep _ hsep hne hse
    rw [List.nil_append, tvInner]
    obtain ⟨x, hx⟩ := Option.isSome_iff_exists.mp hse
    rw [if_pos ⟨by simpa using hne, hsep⟩, hx]
    match x with
    | (n, m, g4) => rfl
  | cons c t' ih =>
    intro acc tail sep hnl hsep hne hse
    rw [List.cons_append, tvInner]
    split
    · rfl
    · rw [if_neg (fun hc => hnl (by rw [hc]; exact List.mem_cons_self _ _))]
      exact ih (acc ++ [c]) tail sep (fun hm => hnl (List.mem_cons_of_mem _ hm)) hsep
        (by simp) hse

theorem tvOuter_start0 (s : List Char) (h : (tvInner [] s).isSome = true) :
    tvOuter s = tvInner [] s := by
  match s with
  | [] => rw [tvInner] at h; exact Bool.noConfusion h
  | c :: rest =>
    rw [tvOuter]
    obtain ⟨x, hx⟩ := Option.isSome_iff_exists.mp h
    rw [hx]

/-- Claim C2 (amended): for every filename with a non-book extension
whose stem decomposes as `<title><sep>S<dd>E<dd><rest>` with `sep` a
space or dot (newline-free title and rest), `parse_filename` returns
`type = tv` where, for some such decomposition (the regex chooses the
leftmost shortest title), season and episode are the captured integers
(case-insensitive `S`/`E`), the title is the captured title with dots
(only) replaced by spaces and whitespace-trimmed, and the episode title
is the rest with its leading ` .-` separators dropped, dots replaced by
spaces and trimmed. -/
theorem parse_filename_tv_pattern (parentName grandName name t d e r : List Char)
    (sep sc ec : Char)
    (hext : bookishExts.contains (pyLower (suffixOf name)) = false)
    (hstem : stemOf name = t ++ sep :: sc :: (d ++ ec :: (e ++ r)))
    (ht : t ≠ []) (htn : '\n' ∉ t)
    (hsep : sep = ' ' ∨ sep = '.') (hsc : sc = 's' ∨ sc = 'S') (hec : ec = 'e' ∨ ec = 'E')
    (hd : digitsOk d) (he : digitsOk e) (hrn : '\n' ∉ r) :
    ∃ (t' d' e' r' : List Char) (sep' sc' ec' : Char),
      stemOf name = t' ++ sep' :: sc' :: (d' ++ ec' :: (e' ++ r')) ∧
      t' ≠ [] ∧ '\n' ∉ t' ∧ (sep' = ' ' ∨ sep' = '.') ∧
      (sc' = 's' ∨ sc' = 'S') ∧ (ec' = 'e' ∨ ec' = 'E') ∧
      digitsOk d' ∧ digitsOk e' ∧
      parse_filename parentName grandName name =
        { ptype := "tv", title := pyStrip pyWs (dot2sp t'),
          season := some (digitsVal d'), episode := some (digitsVal e'),
          episodeTitle := (tvG4 r').map (fun g => pyStrip pyWs (dot2sp g)),
          year := none, isAudio := false } := by
  have hse : (tvSETail (sc :: (d ++ ec :: (e ++ r)))).isSome = true :=
    tvSETail_complete sc ec d e r hsc hec hd he hrn
  have hin : (tvInner [] (stemOf name)).isSome = true := by
    rw [hstem]
    exact tvInner_complete t [] (sc :: (d ++ ec :: (e ++ r))) sep htn hsep (by simpa using ht) hse
  obtain ⟨res, hres⟩ := Option.isSome_iff_exists.mp hin
  have houter : tvOuter (stemOf name) = some res := by
    rw [tvOuter_start0 (stemOf name) hin]; exact hres
  match res, hres with
  | (t'', n, m, g4), hres =>
    obtain ⟨t₀, sep', tail, hdec, ht'', hnl0, hsep', hne0, hsetail⟩ :=
      tvInner_sound (stemOf name) [] t'' n m g4 hres
    obtain ⟨sc', d', ec', e', r', htail, hsc', hec', hd', he', hn, hm, htv4⟩ :=
      tvSETail_sound tail n m g4 hsetail
    have hg4 : g4 = tvG4 r' := tvTail4_eq r' g4 htv4
    refine ⟨t₀, d', e', r', sep', sc', ec', ?_, ?_, hnl0, hsep', hsc', hec', hd', he', ?_⟩
    · rw [hdec, htail]
    · simpa using hne0
    · rw [parse_filename]
      simp only [hext, Bool.false_eq_true, if_false]
      rw [houter]
      rw [ht'', List.nil_append] at *
      rw [hn, hm, hg4]

/-- Claim C2 (counterexample to the claim as stated): a `-` separator
before `SxxExx` is not accepted by the pattern (the file parses as
`unknown`), and `_` separators in the title are not normalized to
spaces (only `.` is replaced). -/
theorem parse_filename_tv_counterexample :
    parse_filename [] [] "Show-S01E02.mkv".toList
      = { ptype := "unknown", title := "Show-S01E02".toList } ∧
    parse_filename [] [] "Show_Name.S01E01.mkv".toList
      = { ptype := "tv", title := "Show_Name".toList, season := some 1, episode := some 1 } ∧
    "Show_Name".toList ≠ "Show Name".toList :=
  ⟨by decide, by decide, by decide⟩

/-- Claim C2 witness: the amended theorem applied to
"Breaking Bad.S05E14.Ozymandias.mkv". -/
theorem parse_filename_tv_pattern_witness :
    ∃ (t' d' e' r' : List Char) (sep' sc' ec' : Char),
      stemOf "Breaking Bad.S05E14.Ozymandias.mkv".toList
        = t' ++ sep' :: sc' :: (d' ++ ec' :: (e' ++ r')) ∧
      t' ≠ [] ∧ '\n' ∉ t' ∧ (sep' = ' ' ∨ sep' = '.') ∧
      (sc' = 's' ∨ sc' = 'S') ∧ (ec' = 'e' ∨ ec' = 'E') ∧
      digitsOk d' ∧ digitsOk e' ∧
      parse_filename [] [] "Breaking Bad.S05E14.Ozymandias.mkv".toList =
        { ptype := "tv", title := pyStrip pyWs (dot2sp t'),
          season := some (digitsVal d'), episode := some (digitsVal e'),
          episodeTitle := (tvG4 r').map (fun g => pyStrip pyWs (dot2sp g)),
          year := none, isAudio := false } :=
  parse_filename_tv_pattern [] [] "Breaking Bad.S05E14.Ozymandias.mkv".toList
    "Breaking Bad".toList "05".toList "14".toList ".Ozymandias".toList '.' 'S' 'E'
    (by decide) (by decide) (by decide) (by decide) (by decide) (by decide) (by decide)
    (by decide) (by decide) (by decide)

theorem find?_append_of_none {α : Type} (l₁ l₂ : List α) (p : α → Bool)
    (h : l₁.find? p = none) : (l₁ ++ l₂).find? p = l₂.find? p := by
  induction l₁ with
  | nil => rfl
  | cons x xs ih =>
    rw [List.find?_cons] at h
    split at h
    · exact Option.noConfusion h
    · rename_i hx
      have hstep : (x :: (xs ++ l₂)).find? p = (xs ++ l₂).find? p :=
        List.find?_cons_of_neg _ (by simp [hx])
      rw [List.cons_append, hstep]
      exact ih h

theorem find?_append_of_some {α : Type} (l₁ l₂ : List α) (p : α → Bool) (a : α)
    (h : l₁.find? p = some a) : (l₁ ++ l₂).find? p = some a := by
  induction l₁ with
  | nil => exact Option.noConfusion h
  | cons x xs ih =>
    rw [List.find?_cons] at h
    split at h
    · rename_i hx
      have hstep : (x :: (xs ++ l₂)).find? p = some x :=
        List.find?_cons_of_pos _ (by simp [hx])
      rw [List.cons_append, hstep]
      exact h
    · rename_i hx
      have hstep : (x :: (xs ++ l₂)).find? p = (xs ++ l₂).find? p :=
        List.find?_cons_of_neg _ (by simp [hx])
      rw [List.cons_append, hstep]
      exact ih h

/-- When the filter keeps exactly one element, searching the reversed
list finds that element. -/
theorem reverse_find?_of_filter_singleton {α : Type} (l : List α) (p : α → Bool) (a : α)
    (h : l.filter p = [a]) : l.reverse.find? p = some a := by
  induction l with
  | nil => exact List.noConfusion h
  | cons x xs ih =>
    rw [List.filter_cons] at h
    rw [List.reverse_cons]
    split at h
    · rename_i hx
      have hxa : x = a := (List.cons.inj h).1
      have hxs : xs.filter p = [] := (List.cons.inj h).2
      have hnone : xs.reverse.find? p = none := by
        rw [List.find?_eq_none]
        intro y hy
        have hmem := List.mem_reverse.mp hy
        intro hpy
        have : y ∈ xs.filter p := List.mem_filter.mpr ⟨hmem, hpy⟩
        rw [hxs] at this
        simp at this
      have hsing : ([x] : List α).find? p = some x := List.find?_cons_of_pos _ (by simp [hx])
      rw [find?_append_of_none _ _ _ hnone, hsing, hxa]
    · exact find?_append_of_some _ _ _ _ (ih h)

/-- Claim C3 (amended): for a filename with a non-book extension, when
none of the earlier strategies applies (no `SxxExx` or `NxM` pattern in
the stem, no season token in the parent directory name, and the anime
pattern either fails or captures a number in the 1901-2029 year-skip
range) and the non-overlapping left-to-right year scan of the filename
finds exactly one match in the plausible range 1881-2029,
`parse_filename` returns `type = movie` with that year, the title being
everything before the match start with dots replaced by spaces and
` ()-` trimmed from both ends. -/
theorem parse_filename_movie_year (parentName grandName name : List Char) (st y : Nat)
    (hext : bookishExts.contains (pyLower (suffixOf name)) = false)
    (h1 : tvOuter (stemOf name) = none)
    (h1b : x1bOuter (stemOf name) = none)
    (hfold : seasonSearch parentName = none)
    (hanime : animeSearch name = none ∨
      ∃ tp, animeSearch name = some tp ∧ 1900 < tp.2 ∧ tp.2 < 2030)
    (hscan : (yearScan name).filter yearInRange = [(st, y)]) :
    parse_filename parentName grandName name =
      { ptype := "movie", year := some y,
        title := pyStrip [' ', '(', ')', '-'] (dot2sp (name.take st)) } := by
  have hfind : (yearScan name).reverse.find? yearInRange = some (st, y) :=
    reverse_find?_of_filter_singleton _ _ _ hscan
  have hmovie : movieStep name =
      { ptype := "movie", year := some y,
        title := pyStrip [' ', '(', ')', '-'] (dot2sp (name.take st)) } := by
    rw [movieStep, hfind]
  rcases hanime with ha | ⟨tp, ha, hp1, hp2⟩
  · rw [parse_filename]
    simp only [hext, Bool.false_eq_true, if_false, h1, h1b, hfold, ha]
    exact hmovie
  · rw [parse_filename]
    simp only [hext, Bool.false_eq_true, if_false, h1, h1b, hfold, ha]
    rw [if_neg (not_not_intro ⟨hp1, hp2⟩)]
    exact hmovie

/-- Claim C3 (counterexample to the claim as stated): in
`X 2049 1982.mkv` the only 4-digit token inside the plausible range
1881-2029 that is bounded by separators/parentheses/string edges is
`1982` (at index 7, flanked by a space and a dot), and the filename has
no season/episode marker — yet parsing yields `unknown`, because the
non-overlapping scanner consumes the space before `1982` as part of the
out-of-range match ` 2049 ` and therefore never sees `1982`. -/
theorem parse_filename_movie_year_counterexample :
    (∀ i, i < 15 →
      (((("X 2049 1982.mkv".toList.drop i).take 4).all isDigitCh = true ∧
        (("X 2049 1982.mkv".toList.drop i).take 4).length = 4 ∧
        1880 < digitsVal (("X 2049 1982.mkv".toList.drop i).take 4) ∧
        digitsVal (("X 2049 1982.mkv".toList.drop i).take 4) < 2030 ∧
        (i = 0 ∨ ("X 2049 1982.mkv".toList.drop (i - 1)).take 1 = [' '] ∨
          ("X 2049 1982.mkv".toList.drop (i - 1)).take 1 = ['.'] ∨
          ("X 2049 1982.mkv".toList.drop (i - 1)).take 1 = ['(']) ∧
        (i + 4 = 15 ∨ ("X 2049 1982.mkv".toList.drop (i + 4)).take 1 = [' '] ∨
          ("X 2049 1982.mkv".toList.drop (i + 4)).take 1 = ['.'] ∨
          ("X 2049 1982.mkv".toList.drop (i + 4)).take 1 = [')'])) → i = 7)) ∧
    digitsVal (("X 2049 1982.mkv".toList.drop 7).take 4) = 1982 ∧
    tvOuter (stemOf "X 2049 1982.mkv".toList) = none ∧
    x1bOuter (stemOf "X 2049 1982.mkv".toList) = none ∧
    animeSearch "X 2049 1982.mkv".toList = none ∧
    parse_filename [] [] "X 2049 1982.mkv".toList
      = { ptype := "unknown", title := "X 2049 1982".toList } := by
  refine ⟨by decide, by decide, by decide, by decide, by decide, by decide⟩

/-- Claim C3 witness: the amended theorem applied to
"The Matrix (1999).mkv". -/
theorem parse_filename_movie_year_witness :
    parse_filename [] [] "The Matrix (1999).mkv".toList =
      { ptype := "movie", year := some 1999,
        title := pyStrip [' ', '(', ')', '-']
          (dot2sp ("The Matrix (1999).mkv".toList.take 11)) } :=
  parse_filename_movie_year [] [] "The Matrix (1999).mkv".toList 11 1999
    (by decide) (by decide) (by decide) (by decide) (Or.inl (by decide)) (by decide)

end FileRenamer
